import Mathlib

/-!
Shallow embedding of the traffic-signal control core of TorontoSUMONetworks:
the per-intersection `TrafficLightController` state machine
(`src/scripts/marl_setup/traffic_light_controller.py`), the simulator
stepping surface (`sumo_traffic_simulator.py`), the multi-agent environment
(`marl_environment.py`) and the CTDE training pieces (`marl_ctde.py`,
`agent_networks.py`).  Python floats carrying simulation times and detector
readings are modelled by rationals; the value networks are modelled over the
reals.  Python dictionary indexing that can raise `KeyError`, and simulator
exceptions that are re-raised, are modelled with `Except`.
-/

namespace TorontoSUMO

/-- Decidable equality for `Except`, used to evaluate the embedding on
concrete inputs. -/
instance {ε α : Type} [DecidableEq ε] [DecidableEq α] : DecidableEq (Except ε α) :=
  fun x y =>
    match x, y with
    | .error a, .error b =>
      if h : a = b then .isTrue (h ▸ rfl) else .isFalse (fun he => h (Except.error.inj he))
    | .ok a, .ok b =>
      if h : a = b then .isTrue (h ▸ rfl) else .isFalse (fun he => h (Except.ok.inj he))
    | .error _, .ok _ => .isFalse (fun he => Except.noConfusion he)
    | .ok _, .error _ => .isFalse (fun he => Except.noConfusion he)

/-- Lookup in an association list, modelling Python `dict.get` /
`dict.__getitem__` on a dict built by successive insertions. -/
def assocGet {α β : Type} [DecidableEq α] : List (α × β) → α → Option β
  | [], _ => none
  | (k', v) :: rest, k => if k' = k then some v else assocGet rest k

/-- Python `d[k] = v`: overwrite the entry when the key is present, append a
new entry otherwise. -/
def assocSet {α β : Type} [DecidableEq α] : List (α × β) → α → β → List (α × β)
  | [], k, v => [(k, v)]
  | (k', v') :: rest, k, v =>
    if k' = k then (k', v) :: rest else (k', v') :: assocSet rest k v

/-- Value stored in the `aggregated_data` dictionary of `collect_data`:
either a Python float (a rational here) or a numpy one-hot vector. -/
inductive MetricValue where
  | num (q : ℚ)
  | vec (l : List ℚ)
  deriving DecidableEq, Repr

/-- Python `d[k] += q` on a float/array-valued dict: `KeyError` when the key
is absent; numpy broadcast when the stored value is an array. -/
def dictAdd : List (String × MetricValue) → String → ℚ → Except String (List (String × MetricValue))
  | [], k, _ => .error k
  | (k', v') :: rest, k, q =>
    if k' = k then
      match v' with
      | .num v => .ok ((k', .num (v + q)) :: rest)
      | .vec l => .ok ((k', .vec (l.map (fun x => x + q))) :: rest)
    else
      match dictAdd rest k q with
      | .ok rest' => .ok ((k', v') :: rest')
      | .error e => .error e

/-- Python `d[k] /= q`, with the same `KeyError` behaviour as `dictAdd`. -/
def dictDiv : List (String × MetricValue) → String → ℚ → Except String (List (String × MetricValue))
  | [], k, _ => .error k
  | (k', v') :: rest, k, q =>
    if k' = k then
      match v' with
      | .num v => .ok ((k', .num (v / q)) :: rest)
      | .vec l => .ok ((k', .vec (l.map (fun x => x / q))) :: rest)
    else
      match dictDiv rest k q with
      | .ok rest' => .ok ((k', v') :: rest')
      | .error e => .error e

/-- Model of Python `str.startswith`. -/
def strStarts (s p : String) : Bool := p.data.isPrefixOf s.data

/-- `identify_phase_type`: classify a phase by scanning its signal-state
string (traffic_light_controller.py, lines 150-162). -/
def identify_phase_type (state_str : String) : String :=
  if state_str.data.contains 'G' || state_str.data.contains 'g' then "green"
  else if state_str.data.contains 'y' || state_str.data.contains 'Y' then "amber"
  else if state_str.data.all (fun c => c = 'r') then "all-red"
  else "clearance"

/-- Regulatory minimum durations in seconds for each phase type
(`setup_phase_durations`, lines 169-174). -/
def regulatory_min_durations : List (String × ℚ) :=
  [("green", 7), ("amber", 3), ("all-red", 1), ("clearance", 3)]

/-- Python `enumerate`, starting at the given index. -/
def enumList {α : Type} : ℕ → List α → List (ℕ × α)
  | _, [] => []
  | i, x :: xs => (i, x) :: enumList (i + 1) xs

/-- `setup_phase_durations`: phase index to the regulatory minimum of that
phase's classified type, with default 0 for an unknown type. -/
def setup_phase_durations (phase_types : List String) : List (ℕ × ℚ) :=
  (enumList 0 phase_types).map (fun p => (p.1, (assocGet regulatory_min_durations p.2).getD 0))

/-- The `action_type` configuration value. -/
inductive ActionType where
  | binary
  | multiphase
  deriving DecidableEq, Repr

/-- Static configuration of one `TrafficLightController`: its action type
and the signal-state strings of its phase program, in program order. -/
structure TLConfig where
  action_type : ActionType
  phase_states : List String
  deriving DecidableEq, Repr

/-- `num_phases = len(self.phases)`. -/
def TLConfig.num_phases (c : TLConfig) : ℕ := c.phase_states.length

/-- The classified phase types recorded in `phase_info`. -/
def TLConfig.phase_types (c : TLConfig) : List String :=
  c.phase_states.map identify_phase_type

/-- The controller's `phase_min_durations` dictionary. -/
def TLConfig.phase_min_durations (c : TLConfig) : List (ℕ × ℚ) :=
  setup_phase_durations c.phase_types

/-- The regulatory minimum for a phase index, as read by `pseudo_step`
(`self.phase_min_durations.get(self.current_phase, 0)`). -/
def minDur (c : TLConfig) (i : ℕ) : ℚ :=
  (assocGet c.phase_min_durations i).getD 0

/-- `setup_state_machine`, binary branch (lines 197-204): dictionary
`i ↦ {0: i, 1: (i+1) % num_phases}` for `i` in `range num_phases`. -/
def state_machine_binary (n : ℕ) : List (ℕ × (ℕ × ℕ)) :=
  (List.range n).map (fun i => (i, (i, (i + 1) % n)))

/-- `setup_state_machine`, multiphase branch (lines 189-195): dictionary
`i ↦ list(range(num_phases)) \ [i]`. -/
def state_machine_multiphase (n : ℕ) : List (ℕ × List ℕ) :=
  (List.range n).map (fun i => (i, (List.range n).filter (fun j => j ≠ i)))

/-- One entry of the append-only `phase_changes` audit log. -/
structure PhaseChange where
  time : ℚ
  old_phase : ℕ
  new_phase : ℕ
  deriving DecidableEq, Repr

/-- The mutable state of one `TrafficLightController`. -/
structure TLState where
  current_phase : ℕ
  current_phase_start_time : ℚ
  phase_changes : List PhaseChange
  deriving DecidableEq, Repr

/-- `TrafficLightController.pseudo_step` (lines 206-263). `current_time` is
the value returned by `simulation.getTime()`; the `setPhase` and
`setPhaseDuration` calls mutate only the external simulator.  A `KeyError`
on the binary state-machine dictionary (`permissible_actions[action]` on the
default empty dict) is an `Except.error`. -/
def pseudo_step (c : TLConfig) (st : TLState) (current_time : ℚ) (action : ℕ) :
    Except String TLState :=
  let elapsed_time := current_time - st.current_phase_start_time
  let min_duration := (assocGet c.phase_min_durations st.current_phase).getD 0
  if min_duration ≤ elapsed_time then
    match c.action_type with
    | .multiphase =>
      let desired_next_phase := action
      let permissible_next_phases :=
        (assocGet (state_machine_multiphase c.num_phases) st.current_phase).getD []
      if desired_next_phase ∈ permissible_next_phases then
        .ok { current_phase := desired_next_phase
              current_phase_start_time := current_time
              phase_changes := st.phase_changes ++
                [⟨current_time, st.current_phase, desired_next_phase⟩] }
      else .ok st
    | .binary =>
      if action = 1 then
        match assocGet (state_machine_binary c.num_phases) st.current_phase with
        | some pa =>
          .ok { current_phase := pa.2
                current_phase_start_time := current_time
                phase_changes := st.phase_changes ++
                  [⟨current_time, st.current_phase, pa.2⟩] }
        | none => .error "KeyError: 1"
      else .ok st
  else .ok st

/-- `reset_tl` (lines 266-285) with the randomly drawn initial phase and the
simulator clock made explicit parameters. -/
def reset_tl (initial_phase : ℕ) (t0 : ℚ) : TLState :=
  { current_phase := initial_phase
    current_phase_start_time := t0
    phase_changes := [] }

/-- A sequence of `pseudo_step` calls, each tagged with the simulator time
at which it happens. -/
def runSteps (c : TLConfig) : TLState → List (ℚ × ℕ) → Except String TLState
  | st, [] => .ok st
  | st, (t, a) :: rest =>
    match pseudo_step c st t a with
    | .ok st' => runSteps c st' rest
    | .error e => .error e

/-- The time at which the currently displayed phase started, given the reset
time and the log so far: the time of the last committed change. -/
def lastTime (t0 : ℚ) : List PhaseChange → ℚ
  | [] => t0
  | e :: rest => lastTime e.time rest

/-- Every entry of the log was committed only after the then-current phase's
regulatory minimum had elapsed since that phase started. -/
def entriesOK (c : TLConfig) : ℚ → List PhaseChange → Prop
  | _, [] => True
  | t0, e :: rest => minDur c e.old_phase ≤ e.time - t0 ∧ entriesOK c e.time rest

/-- The 4-phase controller of the spec scenario: green (7s min), amber (3s
min), all-red (1s min), clearance (3s min), in binary action mode. -/
def exTL : TLConfig :=
  { action_type := .binary, phase_states := ["GGrr", "yyrr", "rrrr", "ssss"] }

/-- The scenario controller's minimum-duration dictionary, precomputed. -/
theorem exTL_min_durations :
    exTL.phase_min_durations = [(0, 7), (1, 3), (2, 1), (3, 3)] := by
  decide

/-- The scenario controller has 4 phases. -/
theorem exTL_nphases : exTL.num_phases = 4 := by decide

/-- The scenario controller's binary state machine, precomputed. -/
theorem exTL_state_machine :
    state_machine_binary exTL.num_phases = [(0, (0, 1)), (1, (1, 2)), (2, (2, 3)), (3, (3, 0))] := by
  decide

/-- The scenario controller is in binary mode. -/
theorem exTL_action : exTL.action_type = ActionType.binary := rfl

example : minDur exTL 0 = 7 := by
  rw [minDur, exTL_min_durations]
  norm_num [assocGet]
example : pseudo_step exTL (reset_tl 0 0) 2 1 = .ok (reset_tl 0 0) := by
  simp only [pseudo_step, reset_tl, exTL_min_durations, exTL_state_machine, exTL_action]
  norm_num [assocGet]
example : pseudo_step exTL (reset_tl 0 0) 8 1 = .ok ⟨1, 8, [⟨8, 0, 1⟩]⟩ := by
  simp only [pseudo_step, reset_tl, exTL_min_durations, exTL_state_machine, exTL_action]
  norm_num [assocGet]
example : runSteps exTL (reset_tl 0 0) [(2, 1), (8, 1)] = .ok ⟨1, 8, [⟨8, 0, 1⟩]⟩ := by
  simp only [runSteps, pseudo_step, reset_tl, exTL_min_durations, exTL_state_machine,
    exTL_action]
  norm_num [assocGet]

theorem lastTime_append (t0 : ℚ) (l : List PhaseChange) (e : PhaseChange) :
    lastTime t0 (l ++ [e]) = e.time := by
  induction l generalizing t0 with
  | nil => rfl
  | cons x xs ih => exact ih x.time

theorem entriesOK_append (c : TLConfig) (l : List PhaseChange) (e : PhaseChange) (t0 : ℚ)
    (hl : entriesOK c t0 l) (he : minDur c e.old_phase ≤ e.time - lastTime t0 l) :
    entriesOK c t0 (l ++ [e]) := by
  induction l generalizing t0 with
  | nil => exact ⟨he, trivial⟩
  | cons x xs ih => exact ⟨hl.1, ih x.time hl.2 he⟩

/-- The invariant tying a controller state to its audit log: all recorded
entries respected the regulatory minimum, and the current phase started at
the time of the last committed change (or at reset). -/
def TLInv (c : TLConfig) (t0 : ℚ) (st : TLState) : Prop :=
  entriesOK c t0 st.phase_changes ∧
    st.current_phase_start_time = lastTime t0 st.phase_changes

theorem pseudo_step_inv (c : TLConfig) (t0 : ℚ) (st : TLState) (t : ℚ) (a : ℕ)
    (st' : TLState) (h : pseudo_step c st t a = .ok st') (hinv : TLInv c t0 st) :
    TLInv c t0 st' := by
  have hmd : minDur c st.current_phase =
      (assocGet c.phase_min_durations st.current_phase).getD 0 := rfl
  simp only [pseudo_step] at h
  by_cases hg : (assocGet c.phase_min_durations st.current_phase).getD 0 ≤
      t - st.current_phase_start_time
  · rw [if_pos hg] at h
    have hguard : minDur c st.current_phase ≤ t - lastTime t0 st.phase_changes := by
      rw [hmd, ← hinv.2]; exact hg
    match hat : c.action_type with
    | .multiphase =>
      rw [hat] at h
      by_cases hmem : a ∈ (assocGet (state_machine_multiphase c.num_phases)
          st.current_phase).getD []
      · rw [if_pos hmem] at h
        cases h
        exact ⟨entriesOK_append c _ _ _ hinv.1 hguard,
          (lastTime_append t0 st.phase_changes ⟨t, st.current_phase, a⟩).symm⟩
      · rw [if_neg hmem] at h
        cases h
        exact hinv
    | .binary =>
      rw [hat] at h
      by_cases ha : a = 1
      · rw [if_pos ha] at h
        cases hsm : assocGet (state_machine_binary c.num_phases) st.current_phase with
        | some pa =>
          rw [hsm] at h
          cases h
          exact ⟨entriesOK_append c _ _ _ hinv.1 hguard,
            (lastTime_append t0 st.phase_changes ⟨t, st.current_phase, pa.2⟩).symm⟩
        | none =>
          rw [hsm] at h
          exact absurd h (by simp)
      · rw [if_neg ha] at h
        cases h
        exact hinv
  · rw [if_neg hg] at h
    cases h
    exact hinv

theorem runSteps_inv (c : TLConfig) (t0 : ℚ) :
    ∀ (steps : List (ℚ × ℕ)) (st st' : TLState),
      runSteps c st steps = .ok st' → TLInv c t0 st → TLInv c t0 st' := by
  intro steps
  induction steps with
  | nil =>
    intro st st' h hinv
    simp only [runSteps] at h
    cases h
    exact hinv
  | cons p rest ih =>
    obtain ⟨t, a⟩ := p
    intro st st' h hinv
    simp only [runSteps] at h
    cases hp : pseudo_step c st t a with
    | ok st1 =>
      rw [hp] at h
      exact ih st1 st' h (pseudo_step_inv c t0 st t a st1 hp hinv)
    | error e =>
      rw [hp] at h
      exact absurd h (by simp)

/-- C1: a `pseudo_step` call whose elapsed time since
`current_phase_start_time` is strictly below the regulatory minimum of the
current phase changes neither `current_phase` nor
`current_phase_start_time` and appends nothing to the phase-change log (the
state is returned untouched); consequently, along any run starting from
`reset_tl`, every entry of the phase-change log was committed only after
the then-current phase's regulatory minimum had elapsed. -/
theorem claim_C1_pseudo_step_guard :
    (∀ (c : TLConfig) (st : TLState) (t : ℚ) (a : ℕ),
        t - st.current_phase_start_time < minDur c st.current_phase →
        pseudo_step c st t a = .ok st) ∧
    (∀ (c : TLConfig) (p : ℕ) (t0 : ℚ) (steps : List (ℚ × ℕ)) (st' : TLState),
        runSteps c (reset_tl p t0) steps = .ok st' →
        entriesOK c t0 st'.phase_changes) := by
  constructor
  · intro c st t a h
    rw [minDur] at h
    simp only [pseudo_step]
    rw [if_neg (not_le.mpr h)]
  · intro c p t0 steps st' h
    exact (runSteps_inv c t0 steps (reset_tl p t0) st' h ⟨trivial, rfl⟩).1

/-- Witness for C1, instantiating the spec scenario: at t=2 (elapsed 2 < 7)
the call leaves the controller untouched; after the run
`[(2,1), (8,1)]` from reset the resulting log `[⟨8, 0, 1⟩]` satisfies the
audit invariant. -/
theorem claim_C1_witness :
    pseudo_step exTL (reset_tl 0 0) 2 1 = .ok (reset_tl 0 0) ∧
    entriesOK exTL 0 (TLState.mk 1 8 [⟨8, 0, 1⟩]).phase_changes := by
  constructor
  · refine claim_C1_pseudo_step_guard.1 exTL (reset_tl 0 0) 2 1 ?_
    rw [minDur, exTL_min_durations]
    norm_num [assocGet, reset_tl]
  · refine claim_C1_pseudo_step_guard.2 exTL 0 0 [(2, 1), (8, 1)] ⟨1, 8, [⟨8, 0, 1⟩]⟩ ?_
    simp only [runSteps, pseudo_step, reset_tl, exTL_min_durations, exTL_state_machine,
      exTL_action]
    norm_num [assocGet]

theorem assocGet_append_some {α β : Type} [DecidableEq α] {l1 : List (α × β)}
    (l2 : List (α × β)) {k : α} {v : β} (h : assocGet l1 k = some v) :
    assocGet (l1 ++ l2) k = some v := by
  induction l1 with
  | nil => exact absurd h (by simp [assocGet])
  | cons x xs ih =>
    rw [assocGet] at h
    rw [List.cons_append, assocGet]
    by_cases hk : x.1 = k
    · rw [if_pos hk] at h ⊢
      exact h
    · rw [if_neg hk] at h ⊢
      exact ih h

theorem assocGet_append_none {α β : Type} [DecidableEq α] {l1 : List (α × β)}
    (l2 : List (α × β)) {k : α} (h : assocGet l1 k = none) :
    assocGet (l1 ++ l2) k = assocGet l2 k := by
  induction l1 with
  | nil => rfl
  | cons x xs ih =>
    rw [assocGet] at h
    rw [List.cons_append, assocGet]
    by_cases hk : x.1 = k
    · rw [if_pos hk] at h
      exact absurd h (by simp)
    · rw [if_neg hk] at h ⊢
      exact ih h

theorem assocGet_map_range_none {β : Type} (f : ℕ → β) :
    ∀ (n p : ℕ), n ≤ p →
      assocGet ((List.range n).map (fun i => (i, f i))) p = none := by
  intro n
  induction n with
  | zero => intro p _; rfl
  | succ n ih =>
    intro p hp
    rw [List.range_succ, List.map_append]
    rw [assocGet_append_none _ (ih p (Nat.le_of_succ_le hp))]
    simp only [List.map_cons, List.map_nil, assocGet]
    rw [if_neg (by omega)]

theorem assocGet_map_range {β : Type} (f : ℕ → β) :
    ∀ (n p : ℕ), p < n →
      assocGet ((List.range n).map (fun i => (i, f i))) p = some (f p) := by
  intro n
  induction n with
  | zero => intro p hp; exact absurd hp (by omega)
  | succ n ih =>
    intro p hp
    rw [List.range_succ, List.map_append]
    by_cases hlt : p < n
    · exact assocGet_append_some _ (ih p hlt)
    · have hpn : p = n := by omega
      subst hpn
      rw [assocGet_append_none _ (assocGet_map_range_none f p p le_rfl)]
      simp [assocGet]

/-- C5: in binary mode, action 0 leaves the controller state untouched (in
particular it never changes `current_phase`; the 5-second
`setPhaseDuration` extension only affects the external simulator), and
action 1, once the regulatory minimum of the current phase has elapsed,
commits the transition to `(current_phase + 1) % num_phases`, resets
`current_phase_start_time` to the current time and appends the matching
entry to the phase-change log. -/
theorem claim_C5_binary (c : TLConfig) (st : TLState) (t : ℚ)
    (hbin : c.action_type = ActionType.binary) :
    pseudo_step c st t 0 = .ok st ∧
    (minDur c st.current_phase ≤ t - st.current_phase_start_time →
      st.current_phase < c.num_phases →
      pseudo_step c st t 1 = .ok
        { current_phase := (st.current_phase + 1) % c.num_phases
          current_phase_start_time := t
          phase_changes := st.phase_changes ++
            [⟨t, st.current_phase, (st.current_phase + 1) % c.num_phases⟩] }) := by
  constructor
  · simp only [pseudo_step, hbin]
    split
    · rw [if_neg (by omega : ¬ (0 : ℕ) = 1)]
    · rfl
  · intro hmin hlt
    rw [minDur] at hmin
    have hsm : assocGet (state_machine_binary c.num_phases) st.current_phase =
        some (st.current_phase, (st.current_phase + 1) % c.num_phases) := by
      rw [state_machine_binary]
      exact assocGet_map_range (fun i => (i, (i + 1) % c.num_phases)) c.num_phases
        st.current_phase hlt
    simp only [pseudo_step, hbin]
    rw [if_pos hmin]
    simp only [if_true, hsm]

/-- Witness for C5 on the scenario controller at t=8: action 0 keeps the
state, action 1 commits phase 0 → 1 and resets the timer to 8. -/
theorem claim_C5_witness :
    pseudo_step exTL (reset_tl 0 0) 8 0 = .ok (reset_tl 0 0) ∧
    pseudo_step exTL (reset_tl 0 0) 8 1 = .ok ⟨1, 8, [⟨8, 0, 1⟩]⟩ := by
  have h := claim_C5_binary exTL (reset_tl 0 0) 8 rfl
  refine ⟨h.1, ?_⟩
  have h2 := h.2 (by rw [minDur, exTL_min_durations]; norm_num [assocGet, reset_tl])
    (by rw [exTL_nphases]; norm_num [reset_tl])
  rw [h2]
  norm_num [reset_tl, exTL_nphases]

/-- Per-detector telemetry returned by the simulator interface
(`inductionloop.*` for `e1det_` ids, `lanearea.*` for `e2det_` ids). -/
structure Readings where
  vehNum : String → ℚ
  meanSpeed : String → ℚ
  occupancy : String → ℚ
  jamVeh : String → ℚ
  jamMeters : String → ℚ
  haltNum : String → ℚ

/-- `get_current_phase_one_hot` (lines 113-125): zeros with a 1 at the
current phase index. -/
def get_current_phase_one_hot (current_phase num_phases : ℕ) : List ℚ :=
  (List.range num_phases).map (fun i => if i = current_phase then 1 else 0)

/-- The running state inside `collect_data`'s detector loop. -/
structure CollectSt where
  d : List (String × MetricValue)
  mean_speed_count : ℕ
  occupancy_count : ℕ

/-- One iteration of the detector loop of `collect_data` (lines 74-102):
`e1det_` detectors contribute vehicle count (accumulated under the
`throughput` key), mean speed (only when the reading is non-negative) and
occupancy (unconditionally); `e2det_` detectors contribute the queue and
halt metrics; other ids contribute nothing.  The `Except` bind of each
dictionary update is written as an explicit match. -/
def collect_detector (m : List String) (r : Readings) (st : CollectSt)
    (detector_id : String) : Except String CollectSt :=
  if strStarts detector_id "e1det_" then
    match (if "vehicle_count" ∈ m then dictAdd st.d "throughput" (r.vehNum detector_id)
           else .ok st.d) with
    | .error e => .error e
    | .ok d1 =>
      match (if "mean_speed" ∈ m then
               (if 0 ≤ r.meanSpeed detector_id then
                  match dictAdd d1 "mean_speed" (r.meanSpeed detector_id) with
                  | .error e => Except.error e
                  | .ok d => Except.ok (d, st.mean_speed_count + 1)
                else Except.ok (d1, st.mean_speed_count))
             else Except.ok (d1, st.mean_speed_count) :
            Except String (List (String × MetricValue) × ℕ)) with
      | .error e => .error e
      | .ok p2 =>
        match (if "occupancy" ∈ m then
                 match dictAdd p2.1 "occupancy" (r.occupancy detector_id) with
                 | .error e => Except.error e
                 | .ok d => Except.ok (d, st.occupancy_count + 1)
               else Except.ok (p2.1, st.occupancy_count) :
              Except String (List (String × MetricValue) × ℕ)) with
        | .error e => .error e
        | .ok p3 => .ok ⟨p3.1, p2.2, p3.2⟩
  else if strStarts detector_id "e2det_" then
    match (if "queue_length" ∈ m then dictAdd st.d "queue_length" (r.jamVeh detector_id)
           else .ok st.d) with
    | .error e => .error e
    | .ok d1 =>
      match (if "queue_length_in_meters" ∈ m then
               dictAdd d1 "queue_length_in_meters" (r.jamMeters detector_id)
             else .ok d1) with
      | .error e => .error e
      | .ok d2 =>
        match (if "halt_count" ∈ m then dictAdd d2 "halt_count" (r.haltNum detector_id)
               else .ok d2) with
        | .error e => .error e
        | .ok d3 => .ok ⟨d3, st.mean_speed_count, st.occupancy_count⟩
  else .ok st

/-- The detector loop of `collect_data`, in detector order. -/
def collect_loop (m : List String) (r : Readings) :
    CollectSt → List String → Except String CollectSt
  | st, [] => .ok st
  | st, det :: rest =>
    match collect_detector m r st det with
    | .ok st' => collect_loop m r st' rest
    | .error e => .error e

/-- The `aggregated_data` dictionary right before the detector loop of
`collect_data` (lines 61-71): one 0.0 entry per configured state metric,
then the current phase stored scalar or one-hot when configured. -/
def collect_init (m : List String) (use_one_hot : Bool) (current_phase num_phases : ℕ) :
    List (String × MetricValue) :=
  let init := m.map (fun metric => (metric, MetricValue.num 0))
  if "current_phase" ∈ m then
    if use_one_hot then
      assocSet init "current_phase"
        (.vec (get_current_phase_one_hot current_phase num_phases))
    else assocSet init "current_phase" (.num (current_phase : ℚ))
  else init

/-- `TrafficLightController.collect_data` (lines 57-110): initialize the
dictionary through `collect_init`, run the detector loop, then divide the
mean-speed and occupancy accumulators by their counts when positive. -/
def collect_data (m : List String) (use_one_hot : Bool) (current_phase num_phases : ℕ)
    (detectors : List String) (r : Readings) :
    Except String (List (String × MetricValue)) :=
  match collect_loop m r ⟨collect_init m use_one_hot current_phase num_phases, 0, 0⟩
      detectors with
  | .error e => .error e
  | .ok st =>
    match (if 0 < st.mean_speed_count then
             dictDiv st.d "mean_speed" (st.mean_speed_count : ℚ)
           else .ok st.d) with
    | .error e => .error e
    | .ok d1 =>
      match (if 0 < st.occupancy_count then dictDiv d1 "occupancy" (st.occupancy_count : ℚ)
             else .ok d1) with
      | .error e => .error e
      | .ok d2 => .ok d2

/-- A phase as read from the simulator's program logic. -/
structure SumoPhase where
  duration : ℚ
  state : String
  deriving DecidableEq

/-- One entry of the controller's `phase_info` list. -/
structure PhaseInfo where
  index : ℕ
  duration : ℚ
  state : String
  type : String
  deriving DecidableEq

/-- `read_phases` (lines 127-148), with the
`trafficlight.getAllProgramLogics` simulator call made an explicit
`Except`-valued input: on success it returns the phases and the classified
`phase_info`; the `except` branch logs the error and returns the empty
phase list, so no simulator exception ever propagates out of it. -/
def read_phases (fetch : Except String (List SumoPhase)) :
    Except String (List SumoPhase × List PhaseInfo) :=
  match fetch with
  | .ok phases =>
    .ok (phases, (enumList 0 phases).map (fun p =>
      { index := p.1, duration := p.2.duration, state := p.2.state
        type := identify_phase_type p.2.state }))
  | .error _ => .ok ([], [])

/-- `pseudo_step` with the `simulation.getTime()` simulator call made an
explicit `Except`-valued input: an exception escapes the `try` block, is
logged and re-raised (lines 260-263). -/
def pseudo_step_sim (c : TLConfig) (st : TLState) (time_fetch : Except String ℚ)
    (action : ℕ) : Except String TLState :=
  match time_fetch with
  | .ok current_time => pseudo_step c st current_time action
  | .error e => .error e

/-- C6 counterexample: an exception from the
`getAllProgramLogics` simulator call inside `read_phases` (part of
controller configuration) is not re-raised; the call completes normally
with the default empty phase list, so the claim that every simulator
exception during configuration is re-raised fails on this concrete input. -/
theorem claim_C6_counterexample :
    read_phases (Except.error "TraCIException") = .ok ([], []) ∧
    read_phases (Except.error "TraCIException") ≠ Except.error "TraCIException" := by
  refine ⟨rfl, ?_⟩
  intro h
  exact Except.noConfusion h

/-- C6 amended: an exception raised by a simulator call during stepping
(`pseudo_step`) is re-raised to the caller, but an exception raised while
reading the phase program (`read_phases`) is logged and swallowed, the call
returning the empty phase list instead. -/
theorem claim_C6_amended :
    (∀ (c : TLConfig) (st : TLState) (e : String) (a : ℕ),
        pseudo_step_sim c st (Except.error e) a = Except.error e) ∧
    (∀ (e : String), read_phases (Except.error e) = .ok ([], [])) :=
  ⟨fun _ _ _ _ => rfl, fun _ => rfl⟩

/-- The key list of the `aggregated_data` dictionary. -/
def dictKeys (d : List (String × MetricValue)) : List String := d.map Prod.fst

theorem dictKeys_cons (k : String) (v : MetricValue) (d : List (String × MetricValue)) :
    dictKeys ((k, v) :: d) = k :: dictKeys d := rfl

theorem dictAdd_error (k : String) (q : ℚ) :
    ∀ d : List (String × MetricValue), k ∉ dictKeys d → dictAdd d k q = .error k := by
  intro d
  induction d with
  | nil => intro _; rfl
  | cons x xs ih =>
    obtain ⟨k', v'⟩ := x
    intro h
    rw [dictKeys_cons, List.mem_cons] at h
    push_neg at h
    simp only [dictAdd]
    rw [if_neg (fun he => h.1 he.symm), ih h.2]

theorem dictAdd_mem (k : String) (q : ℚ) :
    ∀ d : List (String × MetricValue), k ∈ dictKeys d →
      ∃ d', dictAdd d k q = .ok d' ∧ dictKeys d' = dictKeys d ∧
        ∀ k', k' ≠ k → assocGet d' k' = assocGet d k' := by
  intro d
  induction d with
  | nil => intro h; exact absurd h (by simp [dictKeys])
  | cons x xs ih =>
    obtain ⟨k', v'⟩ := x
    intro h
    by_cases hk : k' = k
    · subst hk
      cases v' with
      | num v =>
        refine ⟨(k', .num (v + q)) :: xs, ?_, rfl, ?_⟩
        · simp only [dictAdd, if_true]
        · intro k'' hne
          rw [assocGet, assocGet, if_neg (fun he => hne he.symm),
            if_neg (fun he => hne he.symm)]
      | vec l =>
        refine ⟨(k', .vec (l.map (fun x => x + q))) :: xs, ?_, rfl, ?_⟩
        · simp only [dictAdd, if_true]
        · intro k'' hne
          rw [assocGet, assocGet, if_neg (fun he => hne he.symm),
            if_neg (fun he => hne he.symm)]
    · have hxs : k ∈ dictKeys xs := by
        rw [dictKeys_cons, List.mem_cons] at h
        exact h.resolve_left (fun he => hk he.symm)
      obtain ⟨rest', hr, hkeys, hget⟩ := ih hxs
      refine ⟨(k', v') :: rest', ?_, ?_, ?_⟩
      · simp only [dictAdd]
        rw [if_neg hk, hr]
      · rw [dictKeys_cons, dictKeys_cons, hkeys]
      · intro k'' hne
        rw [assocGet, assocGet]
        by_cases he : k' = k''
        · rw [if_pos he, if_pos he]
        · rw [if_neg he, if_neg he]
          exact hget k'' hne

theorem dictAdd_get_num (k : String) (q v : ℚ) :
    ∀ d : List (String × MetricValue), assocGet d k = some (.num v) →
      ∃ d', dictAdd d k q = .ok d' ∧ assocGet d' k = some (.num (v + q)) ∧
        dictKeys d' = dictKeys d ∧ ∀ k', k' ≠ k → assocGet d' k' = assocGet d k' := by
  intro d
  induction d with
  | nil => intro h; exact absurd h (by simp [assocGet])
  | cons x xs ih =>
    obtain ⟨k', v'⟩ := x
    intro h
    by_cases hk : k' = k
    · subst hk
      rw [assocGet, if_pos rfl] at h
      cases h
      refine ⟨(k', .num (v + q)) :: xs, ?_, ?_, rfl, ?_⟩
      · simp only [dictAdd, if_true]
      · rw [assocGet, if_pos rfl]
      · intro k'' hne
        rw [assocGet, assocGet, if_neg (fun he => hne he.symm),
          if_neg (fun he => hne he.symm)]
    · rw [assocGet, if_neg hk] at h
      obtain ⟨rest', hr, hg, hkeys, hget⟩ := ih h
      refine ⟨(k', v') :: rest', ?_, ?_, ?_, ?_⟩
      · simp only [dictAdd]
        rw [if_neg hk, hr]
      · rw [assocGet, if_neg hk]
        exact hg
      · rw [dictKeys_cons, dictKeys_cons, hkeys]
      · intro k'' hne
        rw [assocGet, assocGet]
        by_cases he : k' = k''
        · rw [if_pos he, if_pos he]
        · rw [if_neg he, if_neg he]
          exact hget k'' hne

theorem dictDiv_get_num (k : String) (q v : ℚ) :
    ∀ d : List (String × MetricValue), assocGet d k = some (.num v) →
      ∃ d', dictDiv d k q = .ok d' ∧ assocGet d' k = some (.num (v / q)) ∧
        dictKeys d' = dictKeys d ∧ ∀ k', k' ≠ k → assocGet d' k' = assocGet d k' := by
  intro d
  induction d with
  | nil => intro h; exact absurd h (by simp [assocGet])
  | cons x xs ih =>
    obtain ⟨k', v'⟩ := x
    intro h
    by_cases hk : k' = k
    · subst hk
      rw [assocGet, if_pos rfl] at h
      cases h
      refine ⟨(k', .num (v / q)) :: xs, ?_, ?_, rfl, ?_⟩
      · simp only [dictDiv, if_true]
      · rw [assocGet, if_pos rfl]
      · intro k'' hne
        rw [assocGet, assocGet, if_neg (fun he => hne he.symm),
          if_neg (fun he => hne he.symm)]
    · rw [assocGet, if_neg hk] at h
      obtain ⟨rest', hr, hg, hkeys, hget⟩ := ih h
      refine ⟨(k', v') :: rest', ?_, ?_, ?_, ?_⟩
      · simp only [dictDiv]
        rw [if_neg hk, hr]
      · rw [assocGet, if_neg hk]
        exact hg
      · rw [dictKeys_cons, dictKeys_cons, hkeys]
      · intro k'' hne
        rw [assocGet, assocGet]
        by_cases he : k' = k''
        · rw [if_pos he, if_pos he]
        · rw [if_neg he, if_neg he]
          exact hget k'' hne

theorem dictDiv_mem (k : String) (q : ℚ) :
    ∀ d : List (String × MetricValue), k ∈ dictKeys d →
      ∃ d', dictDiv d k q = .ok d' ∧ dictKeys d' = dictKeys d ∧
        ∀ k', k' ≠ k → assocGet d' k' = assocGet d k' := by
  intro d
  induction d with
  | nil => intro h; exact absurd h (by simp [dictKeys])
  | cons x xs ih =>
    obtain ⟨k', v'⟩ := x
    intro h
    by_cases hk : k' = k
    · subst hk
      cases v' with
      | num v =>
        refine ⟨(k', .num (v / q)) :: xs, ?_, rfl, ?_⟩
        · simp only [dictDiv, if_true]
        · intro k'' hne
          rw [assocGet, assocGet, if_neg (fun he => hne he.symm),
            if_neg (fun he => hne he.symm)]
      | vec l =>
        refine ⟨(k', .vec (l.map (fun x => x / q))) :: xs, ?_, rfl, ?_⟩
        · simp only [dictDiv, if_true]
        · intro k'' hne
          rw [assocGet, assocGet, if_neg (fun he => hne he.symm),
            if_neg (fun he => hne he.symm)]
    · have hxs : k ∈ dictKeys xs := by
        rw [dictKeys_cons, List.mem_cons] at h
        exact h.resolve_left (fun he => hk he.symm)
      obtain ⟨rest', hr, hkeys, hget⟩ := ih hxs
      refine ⟨(k', v') :: rest', ?_, ?_, ?_⟩
      · simp only [dictDiv]
        rw [if_neg hk, hr]
      · rw [dictKeys_cons, dictKeys_cons, hkeys]
      · intro k'' hne
        rw [assocGet, assocGet]
        by_cases he : k' = k''
        · rw [if_pos he, if_pos he]
        · rw [if_neg he, if_neg he]
          exact hget k'' hne

theorem assocSet_keys (k : String) (v : MetricValue) :
    ∀ d : List (String × MetricValue), k ∈ dictKeys d →
      dictKeys (assocSet d k v) = dictKeys d := by
  intro d
  induction d with
  | nil => intro h; exact absurd h (by simp [dictKeys])
  | cons x xs ih =>
    obtain ⟨k', v'⟩ := x
    intro h
    by_cases hk : k' = k
    · rw [assocSet, if_pos hk, dictKeys_cons, dictKeys_cons]
    · have hxs : k ∈ dictKeys xs := by
        rw [dictKeys_cons, List.mem_cons] at h
        exact h.resolve_left (fun he => hk he.symm)
      rw [assocSet, if_neg hk, dictKeys_cons, dictKeys_cons, ih hxs]

theorem assocGet_assocSet_ne (k : String) (v : MetricValue) (k' : String) (h : k' ≠ k) :
    ∀ d : List (String × MetricValue), assocGet (assocSet d k v) k' = assocGet d k' := by
  intro d
  induction d with
  | nil =>
    simp only [assocSet, assocGet]
    rw [if_neg (fun he : k = k' => h he.symm)]
  | cons x xs ih =>
    obtain ⟨k'', v''⟩ := x
    by_cases hk : k'' = k
    · rw [assocSet, if_pos hk, assocGet, assocGet]
      subst hk
      rw [if_neg (fun he => h he.symm), if_neg (fun he => h he.symm)]
    · rw [assocSet, if_neg hk, assocGet, assocGet]
      by_cases he : k'' = k'
      · rw [if_pos he, if_pos he]
      · rw [if_neg he, if_neg he, ih]

theorem dictKeys_init (m : List String) :
    dictKeys (m.map (fun metric => (metric, MetricValue.num 0))) = m := by
  simp [dictKeys, List.map_map]
  exact List.map_id m

theorem assocGet_init (m : List String) (k : String) (h : k ∈ m) :
    assocGet (m.map (fun metric => (metric, MetricValue.num 0))) k =
      some (.num 0) := by
  induction m with
  | nil => exact absurd h (by simp)
  | cons x xs ih =>
    rw [List.map_cons, assocGet]
    by_cases hk : x = k
    · rw [if_pos hk]
    · rw [if_neg hk]
      exact ih ((List.mem_cons.mp h).resolve_left (fun he => hk he.symm))

theorem dictKeys_collect_init (m : List String) (uo : Bool) (cp np : ℕ) :
    dictKeys (collect_init m uo cp np) = m := by
  rw [collect_init]
  by_cases hcp : "current_phase" ∈ m
  · have hmem : "current_phase" ∈ dictKeys (m.map fun metric => (metric, MetricValue.num 0)) := by
      rw [dictKeys_init]
      exact hcp
    rw [if_pos hcp]
    cases uo
    · rw [if_neg Bool.false_ne_true, assocSet_keys _ _ _ hmem, dictKeys_init]
    · rw [if_pos rfl, assocSet_keys _ _ _ hmem, dictKeys_init]
  · rw [if_neg hcp, dictKeys_init]

theorem assocGet_collect_init (m : List String) (uo : Bool) (cp np : ℕ) (k : String)
    (hk : k ∈ m) (hne : k ≠ "current_phase") :
    assocGet (collect_init m uo cp np) k = some (.num 0) := by
  rw [collect_init]
  by_cases hcp : "current_phase" ∈ m
  · rw [if_pos hcp]
    cases uo
    · rw [if_neg Bool.false_ne_true, assocGet_assocSet_ne _ _ _ hne, assocGet_init m k hk]
    · rw [if_pos rfl, assocGet_assocSet_ne _ _ _ hne, assocGet_init m k hk]
  · rw [if_neg hcp, assocGet_init m k hk]

theorem condAdd_ok (cond : Prop) [Decidable cond] (d : List (String × MetricValue))
    (k : String) (q : ℚ) (hmem : cond → k ∈ dictKeys d) :
    ∃ d', (if cond then dictAdd d k q else Except.ok d) = Except.ok d' ∧
      dictKeys d' = dictKeys d ∧ ∀ k', k' ≠ k → assocGet d' k' = assocGet d k' := by
  by_cases hc : cond
  · obtain ⟨d', h, hk, hg⟩ := dictAdd_mem k q d (hmem hc)
    refine ⟨d', ?_, hk, hg⟩
    rw [if_pos hc]
    exact h
  · exact ⟨d, by rw [if_neg hc], rfl, fun _ _ => rfl⟩

theorem condDiv_ok (cond : Prop) [Decidable cond] (d : List (String × MetricValue))
    (k : String) (q : ℚ) (hmem : cond → k ∈ dictKeys d) :
    ∃ d', (if cond then dictDiv d k q else Except.ok d) = Except.ok d' ∧
      dictKeys d' = dictKeys d ∧ ∀ k', k' ≠ k → assocGet d' k' = assocGet d k' := by
  by_cases hc : cond
  · obtain ⟨d', h, hk, hg⟩ := dictDiv_mem k q d (hmem hc)
    refine ⟨d', ?_, hk, hg⟩
    rw [if_pos hc]
    exact h
  · exact ⟨d, by rw [if_neg hc], rfl, fun _ _ => rfl⟩

theorem condAddCount_ok (cond : Prop) [Decidable cond]
    (d : List (String × MetricValue)) (k : String) (q : ℚ) (n : ℕ)
    (hmem : cond → k ∈ dictKeys d) :
    ∃ p : List (String × MetricValue) × ℕ,
      (if cond then
         match dictAdd d k q with
         | .error e => Except.error e
         | .ok d' => Except.ok (d', n + 1)
       else Except.ok (d, n)) = Except.ok p ∧
      dictKeys p.1 = dictKeys d ∧ (p.2 = n ∨ cond) ∧
      ∀ k', k' ≠ k → assocGet p.1 k' = assocGet d k' := by
  by_cases hc : cond
  · obtain ⟨d', h, hk, hg⟩ := dictAdd_mem k q d (hmem hc)
    refine ⟨(d', n + 1), ?_, hk, Or.inr hc, hg⟩
    rw [if_pos hc, h]
  · exact ⟨(d, n), by rw [if_neg hc], rfl, Or.inl rfl, fun _ _ => rfl⟩

theorem msStage_ok (cond : Prop) [Decidable cond] (ms : ℚ)
    (d : List (String × MetricValue)) (k : String) (n : ℕ)
    (hmem : cond → k ∈ dictKeys d) :
    ∃ p : List (String × MetricValue) × ℕ,
      (if cond then
         (if 0 ≤ ms then
            match dictAdd d k ms with
            | .error e => Except.error e
            | .ok d' => Except.ok (d', n + 1)
          else Except.ok (d, n))
       else Except.ok (d, n)) = Except.ok p ∧
      dictKeys p.1 = dictKeys d ∧ (p.2 = n ∨ cond) ∧
      ∀ k', k' ≠ k → assocGet p.1 k' = assocGet d k' := by
  by_cases hc : cond
  · by_cases hge : 0 ≤ ms
    · obtain ⟨d', h, hk, hg⟩ := dictAdd_mem k ms d (hmem hc)
      refine ⟨(d', n + 1), ?_, hk, Or.inr hc, hg⟩
      rw [if_pos hc, if_pos hge, h]
    · exact ⟨(d, n), by rw [if_pos hc, if_neg hge], rfl, Or.inl rfl, fun _ _ => rfl⟩
  · exact ⟨(d, n), by rw [if_neg hc], rfl, Or.inl rfl, fun _ _ => rfl⟩

theorem collect_detector_ok (m : List String) (r : Readings) (st : CollectSt) (det : String)
    (hsub : m ⊆ dictKeys st.d)
    (hthr : strStarts det "e1det_" = true → "vehicle_count" ∈ m →
      "throughput" ∈ dictKeys st.d) :
    ∃ st', collect_detector m r st det = .ok st' ∧ dictKeys st'.d = dictKeys st.d ∧
      (st'.mean_speed_count = st.mean_speed_count ∨ "mean_speed" ∈ m) ∧
      (st'.occupancy_count = st.occupancy_count ∨ "occupancy" ∈ m) := by
  by_cases h1 : strStarts det "e1det_" = true
  · obtain ⟨d1, hd1, hk1, _⟩ := condAdd_ok ("vehicle_count" ∈ m) st.d "throughput"
      (r.vehNum det) (fun hvc => hthr h1 hvc)
    obtain ⟨p2, hp2, hk2, hc2, _⟩ := msStage_ok ("mean_speed" ∈ m) (r.meanSpeed det) d1
      "mean_speed" st.mean_speed_count (fun hms => by rw [hk1]; exact hsub hms)
    obtain ⟨p3, hp3, hk3, hc3, _⟩ := condAddCount_ok ("occupancy" ∈ m) p2.1 "occupancy"
      (r.occupancy det) st.occupancy_count (fun hocc => by rw [hk2, hk1]; exact hsub hocc)
    refine ⟨⟨p3.1, p2.2, p3.2⟩, ?_, ?_, hc2, hc3⟩
    · rw [collect_detector, if_pos h1, hd1]
      simp only [hp2, hp3]
    · rw [hk3, hk2, hk1]
  · by_cases h2 : strStarts det "e2det_" = true
    · obtain ⟨d1, hd1, hk1, _⟩ := condAdd_ok ("queue_length" ∈ m) st.d "queue_length"
        (r.jamVeh det) (fun h => hsub h)
      obtain ⟨d2, hd2, hk2, _⟩ := condAdd_ok ("queue_length_in_meters" ∈ m) d1
        "queue_length_in_meters" (r.jamMeters det) (fun h => by rw [hk1]; exact hsub h)
      obtain ⟨d3, hd3, hk3, _⟩ := condAdd_ok ("halt_count" ∈ m) d2 "halt_count"
        (r.haltNum det) (fun h => by rw [hk2, hk1]; exact hsub h)
      refine ⟨⟨d3, st.mean_speed_count, st.occupancy_count⟩, ?_, ?_, Or.inl rfl, Or.inl rfl⟩
      · rw [collect_detector, if_neg h1, if_pos h2, hd1]
        simp only [hd2, hd3]
      · rw [hk3, hk2, hk1]
    · refine ⟨st, ?_, rfl, Or.inl rfl, Or.inl rfl⟩
      rw [collect_detector, if_neg h1, if_neg h2]

theorem collect_loop_ok (m : List String) (r : Readings) :
    ∀ (dets : List String) (st : CollectSt),
      m ⊆ dictKeys st.d →
      ("vehicle_count" ∈ m → "throughput" ∈ dictKeys st.d) →
      ∃ st', collect_loop m r st dets = .ok st' ∧ dictKeys st'.d = dictKeys st.d ∧
        (st'.mean_speed_count = st.mean_speed_count ∨ "mean_speed" ∈ m) ∧
        (st'.occupancy_count = st.occupancy_count ∨ "occupancy" ∈ m) := by
  intro dets
  induction dets with
  | nil =>
    intro st hsub hthr
    exact ⟨st, rfl, rfl, Or.inl rfl, Or.inl rfl⟩
  | cons det rest ih =>
    intro st hsub hthr
    obtain ⟨st1, h1, hk1, hm1, ho1⟩ := collect_detector_ok m r st det hsub (fun _ => hthr)
    obtain ⟨st', h', hk', hm', ho'⟩ := ih st1 (by rw [hk1]; exact hsub)
      (fun hv => by rw [hk1]; exact hthr hv)
    refine ⟨st', ?_, hk'.trans hk1, ?_, ?_⟩
    · rw [collect_loop, h1]
      exact h'
    · rcases hm' with h | h
      · rw [h]
        exact hm1
      · exact Or.inr h
    · rcases ho' with h | h
      · rw [h]
        exact ho1
      · exact Or.inr h

theorem collect_detector_error (m : List String) (r : Readings) (st : CollectSt)
    (det : String) (h1 : strStarts det "e1det_" = true)
    (hvc : "vehicle_count" ∈ m) (hthr : "throughput" ∉ dictKeys st.d) :
    collect_detector m r st det = .error "throughput" := by
  rw [collect_detector, if_pos h1, if_pos hvc, dictAdd_error _ _ _ hthr]

theorem collect_loop_error (m : List String) (r : Readings) (hvc : "vehicle_count" ∈ m) :
    ∀ (dets : List String) (st : CollectSt),
      "throughput" ∉ dictKeys st.d → m ⊆ dictKeys st.d →
      (∃ det ∈ dets, strStarts det "e1det_" = true) →
      collect_loop m r st dets = .error "throughput" := by
  intro dets
  induction dets with
  | nil =>
    intro st _ _ hdet
    obtain ⟨det, hmem, _⟩ := hdet
    exact absurd hmem (by simp)
  | cons det rest ih =>
    intro st hthr hsub hdet
    by_cases h1 : strStarts det "e1det_" = true
    · rw [collect_loop, collect_detector_error m r st det h1 hvc hthr]
    · obtain ⟨st1, hd1, hk1, _, _⟩ := collect_detector_ok m r st det hsub
        (fun he => absurd he h1)
      rw [collect_loop, hd1]
      refine ih st1 (by rw [hk1]; exact hthr) (by rw [hk1]; exact hsub) ?_
      obtain ⟨det', hmem', hst'⟩ := hdet
      rcases List.mem_cons.mp hmem' with he | ht
      · exact absurd (he ▸ hst') h1
      · exact ⟨det', ht, hst'⟩

/-- C10: with `vehicle_count` among the configured state metrics and at
least one induction-loop (`e1det_`) detector, `collect_data` raises a
`KeyError` on the key `throughput` whenever `throughput` is not itself a
configured metric (the vehicle count is accumulated under `throughput`
while the dictionary is initialized only with the configured metric
names), and it returns normally when `throughput` is configured. -/
theorem claim_C10_throughput_keyerror (m : List String) (use_oh : Bool)
    (cp np : ℕ) (dets : List String) (r : Readings)
    (hvc : "vehicle_count" ∈ m)
    (hdet : ∃ det ∈ dets, strStarts det "e1det_" = true) :
    ("throughput" ∉ m → collect_data m use_oh cp np dets r = .error "throughput") ∧
    ("throughput" ∈ m → ∃ d, collect_data m use_oh cp np dets r = .ok d) := by
  have hkeys := dictKeys_collect_init m use_oh cp np
  constructor
  · intro hthr_not
    have herr := collect_loop_error m r hvc dets
      ⟨collect_init m use_oh cp np, 0, 0⟩
      (by rw [hkeys]; exact hthr_not) (by rw [hkeys]; exact fun x hx => hx) hdet
    rw [collect_data, herr]
  · intro hthr_in
    obtain ⟨st', hloop, hk', hm', ho'⟩ := collect_loop_ok m r dets
      ⟨collect_init m use_oh cp np, 0, 0⟩
      (by rw [hkeys]; exact fun x hx => hx) (fun _ => by rw [hkeys]; exact hthr_in)
    obtain ⟨d1, hdiv1, hkd1, _⟩ := condDiv_ok (0 < st'.mean_speed_count) st'.d
      "mean_speed" (st'.mean_speed_count : ℚ)
      (fun hpos => by
        rcases hm' with h | h
        · rw [h] at hpos
          exact absurd hpos (by simp)
        · rw [hk', hkeys]
          exact h)
    obtain ⟨d2, hdiv2, _, _⟩ := condDiv_ok (0 < st'.occupancy_count) d1
      "occupancy" (st'.occupancy_count : ℚ)
      (fun hpos => by
        rcases ho' with h | h
        · rw [h] at hpos
          exact absurd hpos (by simp)
        · rw [hkd1, hk', hkeys]
          exact h)
    refine ⟨d2, ?_⟩
    rw [collect_data]
    simp only [hloop, hdiv1, hdiv2]

/-- The induction-loop (`e1det_`) detectors among a detector list. -/
def e1dets (dets : List String) : List String :=
  dets.filter (fun det => strStarts det "e1det_")

/-- The mean-speed readings of the induction-loop detectors that report a
valid (non-negative) value. -/
def nonnegSpeeds (r : Readings) (dets : List String) : List ℚ :=
  ((e1dets dets).map r.meanSpeed).filter (fun q => 0 ≤ q)

/-- All occupancy readings of the induction-loop detectors, the negative
ones included. -/
def allOccs (r : Readings) (dets : List String) : List ℚ :=
  (e1dets dets).map r.occupancy

theorem nonnegSpeeds_cons_pos (r : Readings) (det : String) (rest : List String)
    (h1 : strStarts det "e1det_" = true) (hge : 0 ≤ r.meanSpeed det) :
    nonnegSpeeds r (det :: rest) = r.meanSpeed det :: nonnegSpeeds r rest := by
  simp [nonnegSpeeds, e1dets, List.filter_cons, h1, hge]

theorem nonnegSpeeds_cons_neg (r : Readings) (det : String) (rest : List String)
    (h1 : strStarts det "e1det_" = true) (hge : ¬ 0 ≤ r.meanSpeed det) :
    nonnegSpeeds r (det :: rest) = nonnegSpeeds r rest := by
  simp [nonnegSpeeds, e1dets, List.filter_cons, h1, hge]

theorem nonnegSpeeds_cons_not (r : Readings) (det : String) (rest : List String)
    (h1 : ¬ strStarts det "e1det_" = true) :
    nonnegSpeeds r (det :: rest) = nonnegSpeeds r rest := by
  simp [nonnegSpeeds, e1dets, List.filter_cons, h1]

theorem allOccs_cons_pos (r : Readings) (det : String) (rest : List String)
    (h1 : strStarts det "e1det_" = true) :
    allOccs r (det :: rest) = r.occupancy det :: allOccs r rest := by
  simp [allOccs, e1dets, List.filter_cons, h1]

theorem allOccs_cons_not (r : Readings) (det : String) (rest : List String)
    (h1 : ¬ strStarts det "e1det_" = true) :
    allOccs r (det :: rest) = allOccs r rest := by
  simp [allOccs, e1dets, List.filter_cons, h1]

theorem nonnegSpeeds_nil (r : Readings) : nonnegSpeeds r [] = [] := rfl

theorem allOccs_nil (r : Readings) : allOccs r [] = [] := rfl

/-- The detector telemetry of the C7 counterexample: detector `e1det_b`
reports the invalid value -1 for mean speed and occupancy, detector
`e1det_a` reports 4 for both. -/
def exReadingsC7 : Readings :=
  { vehNum := fun _ => 0
    meanSpeed := fun det => if det = "e1det_b" then -1 else 4
    occupancy := fun det => if det = "e1det_b" then -1 else 4
    jamVeh := fun _ => 0
    jamMeters := fun _ => 0
    haltNum := fun _ => 0 }

theorem collect_loop_values (m : List String) (r : Readings)
    (hms : "mean_speed" ∈ m) (hocc : "occupancy" ∈ m) :
    ∀ (dets : List String) (st : CollectSt) (s os : ℚ),
      m ⊆ dictKeys st.d →
      ("vehicle_count" ∈ m → "throughput" ∈ dictKeys st.d) →
      assocGet st.d "mean_speed" = some (.num s) →
      assocGet st.d "occupancy" = some (.num os) →
      ∃ st', collect_loop m r st dets = .ok st' ∧
        dictKeys st'.d = dictKeys st.d ∧
        assocGet st'.d "mean_speed" = some (.num (s + (nonnegSpeeds r dets).sum)) ∧
        st'.mean_speed_count = st.mean_speed_count + (nonnegSpeeds r dets).length ∧
        assocGet st'.d "occupancy" = some (.num (os + (allOccs r dets).sum)) ∧
        st'.occupancy_count = st.occupancy_count + (allOccs r dets).length := by
  intro dets
  induction dets with
  | nil =>
    intro st s os _ _ hgs hgo
    refine ⟨st, rfl, rfl, ?_, by simp [nonnegSpeeds_nil], ?_, by simp [allOccs_nil]⟩
    · rw [nonnegSpeeds_nil]
      simpa using hgs
    · rw [allOccs_nil]
      simpa using hgo
  | cons det rest ih =>
    intro st s os hsub hthr hgs hgo
    by_cases h1 : strStarts det "e1det_" = true
    · obtain ⟨d1, hd1, hk1, hg1⟩ := condAdd_ok ("vehicle_count" ∈ m) st.d "throughput"
        (r.vehNum det) (fun hvcm => hthr hvcm)
      have hgs1 : assocGet d1 "mean_speed" = some (.num s) := by
        rw [hg1 _ (by decide)]
        exact hgs
      have hgo1 : assocGet d1 "occupancy" = some (.num os) := by
        rw [hg1 _ (by decide)]
        exact hgo
      by_cases hge : 0 ≤ r.meanSpeed det
      · obtain ⟨d2, hd2, hg2s, hk2, hg2⟩ :=
          dictAdd_get_num "mean_speed" (r.meanSpeed det) s d1 hgs1
        obtain ⟨d3, hd3, hg3o, hk3, hg3⟩ :=
          dictAdd_get_num "occupancy" (r.occupancy det) os d2
            (by rw [hg2 _ (by decide)]; exact hgo1)
        have hdet_eq : collect_detector m r st det =
            .ok ⟨d3, st.mean_speed_count + 1, st.occupancy_count + 1⟩ := by
          rw [collect_detector, if_pos h1, hd1]
          simp only [if_pos hms, if_pos hge, hd2, if_pos hocc, hd3]
        obtain ⟨st', hloop', hk', hgs', hcms', hgo', hcoc'⟩ :=
          ih ⟨d3, st.mean_speed_count + 1, st.occupancy_count + 1⟩
            (s + r.meanSpeed det) (os + r.occupancy det)
            (by rw [hk3, hk2, hk1]; exact hsub)
            (fun hv => by rw [hk3, hk2, hk1]; exact hthr hv)
            (by rw [hg3 _ (by decide)]; exact hg2s)
            hg3o
        refine ⟨st', ?_, by rw [hk', hk3, hk2, hk1], ?_, ?_, ?_, ?_⟩
        · rw [collect_loop, hdet_eq]
          exact hloop'
        · rw [hgs', nonnegSpeeds_cons_pos r det rest h1 hge]
          norm_num [add_assoc]
        · rw [hcms', nonnegSpeeds_cons_pos r det rest h1 hge]
          simp
          omega
        · rw [hgo', allOccs_cons_pos r det rest h1]
          norm_num [add_assoc]
        · rw [hcoc', allOccs_cons_pos r det rest h1]
          simp
          omega
      · obtain ⟨d3, hd3, hg3o, hk3, hg3⟩ :=
          dictAdd_get_num "occupancy" (r.occupancy det) os d1 hgo1
        have hdet_eq : collect_detector m r st det =
            .ok ⟨d3, st.mean_speed_count, st.occupancy_count + 1⟩ := by
          rw [collect_detector, if_pos h1, hd1]
          simp only [if_pos hms, if_neg hge, if_pos hocc, hd3]
        obtain ⟨st', hloop', hk', hgs', hcms', hgo', hcoc'⟩ :=
          ih ⟨d3, st.mean_speed_count, st.occupancy_count + 1⟩
            s (os + r.occupancy det)
            (by rw [hk3, hk1]; exact hsub)
            (fun hv => by rw [hk3, hk1]; exact hthr hv)
            (by rw [hg3 _ (by decide)]; exact hgs1)
            hg3o
        refine ⟨st', ?_, by rw [hk', hk3, hk1], ?_, ?_, ?_, ?_⟩
        · rw [collect_loop, hdet_eq]
          exact hloop'
        · rw [hgs', nonnegSpeeds_cons_neg r det rest h1 hge]
        · rw [hcms', nonnegSpeeds_cons_neg r det rest h1 hge]
        · rw [hgo', allOccs_cons_pos r det rest h1]
          norm_num [add_assoc]
        · rw [hcoc', allOccs_cons_pos r det rest h1]
          simp
          omega
    · by_cases h2 : strStarts det "e2det_" = true
      · obtain ⟨d1, hd1, hk1, hg1⟩ := condAdd_ok ("queue_length" ∈ m) st.d "queue_length"
          (r.jamVeh det) (fun h => hsub h)
        obtain ⟨d2, hd2, hk2, hg2⟩ := condAdd_ok ("queue_length_in_meters" ∈ m) d1
          "queue_length_in_meters" (r.jamMeters det) (fun h => by rw [hk1]; exact hsub h)
        obtain ⟨d3, hd3, hk3, hg3⟩ := condAdd_ok ("halt_count" ∈ m) d2 "halt_count"
          (r.haltNum det) (fun h => by rw [hk2, hk1]; exact hsub h)
        have hdet_eq : collect_detector m r st det =
            .ok ⟨d3, st.mean_speed_count, st.occupancy_count⟩ := by
          rw [collect_detector, if_neg h1, if_pos h2, hd1]
          simp only [hd2, hd3]
        obtain ⟨st', hloop', hk', hgs', hcms', hgo', hcoc'⟩ :=
          ih ⟨d3, st.mean_speed_count, st.occupancy_count⟩ s os
            (by rw [hk3, hk2, hk1]; exact hsub)
            (fun hv => by rw [hk3, hk2, hk1]; exact hthr hv)
            (by rw [hg3 _ (by decide), hg2 _ (by decide), hg1 _ (by decide)]; exact hgs)
            (by rw [hg3 _ (by decide), hg2 _ (by decide), hg1 _ (by decide)]; exact hgo)
        refine ⟨st', ?_, by rw [hk', hk3, hk2, hk1], ?_, ?_, ?_, ?_⟩
        · rw [collect_loop, hdet_eq]
          exact hloop'
        · rw [hgs', nonnegSpeeds_cons_not r det rest h1]
        · rw [hcms', nonnegSpeeds_cons_not r det rest h1]
        · rw [hgo', allOccs_cons_not r det rest h1]
        · rw [hcoc', allOccs_cons_not r det rest h1]
      · have hdet_eq : collect_detector m r st det = .ok st := by
          rw [collect_detector, if_neg h1, if_neg h2]
        obtain ⟨st', hloop', hk', hgs', hcms', hgo', hcoc'⟩ :=
          ih st s os hsub hthr hgs hgo
        refine ⟨st', ?_, hk', ?_, ?_, ?_, ?_⟩
        · rw [collect_loop, hdet_eq]
          exact hloop'
        · rw [hgs', nonnegSpeeds_cons_not r det rest h1]
        · rw [hcms', nonnegSpeeds_cons_not r det rest h1]
        · rw [hgo', allOccs_cons_not r det rest h1]
        · rw [hcoc', allOccs_cons_not r det rest h1]

theorem collect_data_values (m : List String) (use_oh : Bool) (cp np : ℕ)
    (dets : List String) (r : Readings)
    (hms : "mean_speed" ∈ m) (hocc : "occupancy" ∈ m)
    (hsafe : "vehicle_count" ∈ m → "throughput" ∈ m) :
    ∃ d, collect_data m use_oh cp np dets r = .ok d ∧
      assocGet d "mean_speed" =
        some (.num (if (nonnegSpeeds r dets).length = 0 then 0
          else (nonnegSpeeds r dets).sum / ((nonnegSpeeds r dets).length : ℚ))) ∧
      assocGet d "occupancy" =
        some (.num (if (allOccs r dets).length = 0 then 0
          else (allOccs r dets).sum / ((allOccs r dets).length : ℚ))) := by
  have hkeys := dictKeys_collect_init m use_oh cp np
  have hgs0 : assocGet (collect_init m use_oh cp np) "mean_speed" = some (.num 0) :=
    assocGet_collect_init m use_oh cp np _ hms (by decide)
  have hgo0 : assocGet (collect_init m use_oh cp np) "occupancy" = some (.num 0) :=
    assocGet_collect_init m use_oh cp np _ hocc (by decide)
  obtain ⟨st', hloop, hk', hgs', hcms', hgo', hcoc'⟩ :=
    collect_loop_values m r hms hocc dets ⟨collect_init m use_oh cp np, 0, 0⟩ 0 0
      (by rw [hkeys]; exact fun x hx => hx) (fun hv => by rw [hkeys]; exact hsafe hv)
      hgs0 hgo0
  have hmsdiv : ∃ d1,
      (if 0 < st'.mean_speed_count then
         dictDiv st'.d "mean_speed" (st'.mean_speed_count : ℚ)
       else Except.ok st'.d) = Except.ok d1 ∧
      assocGet d1 "mean_speed" =
        some (.num (if (nonnegSpeeds r dets).length = 0 then 0
          else (nonnegSpeeds r dets).sum / ((nonnegSpeeds r dets).length : ℚ))) ∧
      assocGet d1 "occupancy" = assocGet st'.d "occupancy" := by
    by_cases hz : (nonnegSpeeds r dets).length = 0
    · have hmsc0 : st'.mean_speed_count = 0 := by
        rw [hcms', hz]
      have hnil : nonnegSpeeds r dets = [] := List.length_eq_zero.mp hz
      refine ⟨st'.d, ?_, ?_, rfl⟩
      · rw [if_neg (by rw [hmsc0]; exact lt_irrefl 0)]
      · rw [hgs', hnil]
        norm_num
    · have hpos : 0 < st'.mean_speed_count := by
        rw [hcms']
        omega
      obtain ⟨d1, hd1, hg1, _, hgp⟩ :=
        dictDiv_get_num "mean_speed" (st'.mean_speed_count : ℚ)
          (0 + (nonnegSpeeds r dets).sum) st'.d hgs'
      refine ⟨d1, ?_, ?_, hgp _ (by decide)⟩
      · rw [if_pos hpos]
        exact hd1
      · rw [hg1, if_neg hz, hcms']
        norm_num
  obtain ⟨d1, hd1, hg1ms, hg1oc⟩ := hmsdiv
  have hocdiv : ∃ d2,
      (if 0 < st'.occupancy_count then dictDiv d1 "occupancy" (st'.occupancy_count : ℚ)
       else Except.ok d1) = Except.ok d2 ∧
      assocGet d2 "occupancy" =
        some (.num (if (allOccs r dets).length = 0 then 0
          else (allOccs r dets).sum / ((allOccs r dets).length : ℚ))) ∧
      assocGet d2 "mean_speed" = assocGet d1 "mean_speed" := by
    have hgo1 : assocGet d1 "occupancy" = some (.num (0 + (allOccs r dets).sum)) := by
      rw [hg1oc]
      exact hgo'
    by_cases hz : (allOccs r dets).length = 0
    · have hoc0 : st'.occupancy_count = 0 := by
        rw [hcoc', hz]
      have hnil : allOccs r dets = [] := List.length_eq_zero.mp hz
      refine ⟨d1, ?_, ?_, rfl⟩
      · rw [if_neg (by rw [hoc0]; exact lt_irrefl 0)]
      · rw [hgo1, hnil]
        norm_num
    · have hpos : 0 < st'.occupancy_count := by
        rw [hcoc']
        omega
      obtain ⟨d2, hd2, hg2, _, hgp2⟩ :=
        dictDiv_get_num "occupancy" (st'.occupancy_count : ℚ)
          (0 + (allOccs r dets).sum) d1 hgo1
      refine ⟨d2, ?_, ?_, hgp2 _ (by decide)⟩
      · rw [if_pos hpos]
        exact hd2
      · rw [hg2, if_neg hz, hcoc']
        norm_num
  obtain ⟨d2, hd2, hg2oc, hg2ms⟩ := hocdiv
  refine ⟨d2, ?_, ?_, hg2oc⟩
  · rw [collect_data]
    simp only [hloop, hd1, hd2]
  · rw [hg2ms]
    exact hg1ms

/-- C7 counterexample: with mean speed and occupancy configured and two
induction-loop detectors, where detector b reports the invalid reading -1
for both metrics, `collect_data` averages occupancy as (4 + -1)/2 = 3/2
instead of excluding the negative reading (which would give 4): the
negative occupancy reading is counted in both the sum and the divisor. -/
theorem claim_C7_counterexample :
    collect_data ["mean_speed", "occupancy"] false 0 0 ["e1det_a", "e1det_b"]
        exReadingsC7 =
      .ok [("mean_speed", .num 4), ("occupancy", .num (3 / 2))] ∧
    (3 / 2 : ℚ) ≠ 4 := by
  constructor
  · simp only [collect_data, collect_loop, collect_detector, collect_init]
    norm_num [dictAdd, dictDiv, assocSet, assocGet, strStarts, exReadingsC7]
    norm_num [dictAdd, dictDiv, assocGet,
      eq_false (by decide : ("vehicle_count" : String) ≠ "mean_speed"),
      eq_false (by decide : ("vehicle_count" : String) ≠ "occupancy"),
      eq_false (by decide : ("current_phase" : String) ≠ "mean_speed"),
      eq_false (by decide : ("current_phase" : String) ≠ "occupancy"),
      eq_false (by decide : ("e1det_a" : String) ≠ "e1det_b"),
      eq_false (by decide : ("mean_speed" : String) ≠ "occupancy"),
      eq_false (by decide : ("occupancy" : String) ≠ "mean_speed")]
  · norm_num

/-- C7 amended: in `collect_data`, a negative reading is excluded from both
the running sum and the divisor count for the mean-speed average only; the
occupancy average includes every reading of an induction-loop detector,
negative ones too, in both its sum and its divisor. -/
theorem claim_C7_amended (m : List String) (use_oh : Bool) (cp np : ℕ)
    (dets : List String) (r : Readings)
    (hms : "mean_speed" ∈ m) (hocc : "occupancy" ∈ m)
    (hsafe : "vehicle_count" ∈ m → "throughput" ∈ m) :
    ∃ d, collect_data m use_oh cp np dets r = .ok d ∧
      assocGet d "mean_speed" =
        some (.num (if (nonnegSpeeds r dets).length = 0 then 0
          else (nonnegSpeeds r dets).sum / ((nonnegSpeeds r dets).length : ℚ))) ∧
      assocGet d "occupancy" =
        some (.num (if (allOccs r dets).length = 0 then 0
          else (allOccs r dets).sum / ((allOccs r dets).length : ℚ))) :=
  collect_data_values m use_oh cp np dets r hms hocc hsafe

/-- Witness for C7's amended statement on the counterexample input: the
mean-speed average uses only the valid reading 4 while the occupancy
average includes the invalid -1. -/
theorem claim_C7_witness :
    ∃ d, collect_data ["mean_speed", "occupancy"] false 0 0 ["e1det_a", "e1det_b"]
        exReadingsC7 = .ok d ∧
      assocGet d "mean_speed" =
        some (.num (if (nonnegSpeeds exReadingsC7 ["e1det_a", "e1det_b"]).length = 0 then 0
          else (nonnegSpeeds exReadingsC7 ["e1det_a", "e1det_b"]).sum /
            ((nonnegSpeeds exReadingsC7 ["e1det_a", "e1det_b"]).length : ℚ))) ∧
      assocGet d "occupancy" =
        some (.num (if (allOccs exReadingsC7 ["e1det_a", "e1det_b"]).length = 0 then 0
          else (allOccs exReadingsC7 ["e1det_a", "e1det_b"]).sum /
            ((allOccs exReadingsC7 ["e1det_a", "e1det_b"]).length : ℚ))) :=
  claim_C7_amended ["mean_speed", "occupancy"] false 0 0 ["e1det_a", "e1det_b"]
    exReadingsC7 (by decide) (by decide) (by decide)

/-- Constant unit telemetry used by the C10 witness. -/
def exReadings1 : Readings :=
  { vehNum := fun _ => 1
    meanSpeed := fun _ => 1
    occupancy := fun _ => 1
    jamVeh := fun _ => 1
    jamMeters := fun _ => 1
    haltNum := fun _ => 1 }

/-- Witness for C10: a controller configured with only `vehicle_count` and
one induction-loop detector raises `KeyError: throughput`; adding
`throughput` to the metrics makes the call return normally. -/
theorem claim_C10_witness :
    collect_data ["vehicle_count"] false 0 0 ["e1det_L0"] exReadings1 =
      .error "throughput" ∧
    (∃ d, collect_data ["vehicle_count", "throughput"] false 0 0 ["e1det_L0"]
      exReadings1 = .ok d) := by
  constructor
  · exact (claim_C10_throughput_keyerror ["vehicle_count"] false 0 0 ["e1det_L0"]
      exReadings1 (by decide) ⟨"e1det_L0", by decide, by decide⟩).1 (by decide)
  · exact (claim_C10_throughput_keyerror ["vehicle_count", "throughput"] false 0 0
      ["e1det_L0"] exReadings1 (by decide) ⟨"e1det_L0", by decide, by decide⟩).2 (by decide)

/-- Python unary minus on a stored metric value (`-observation[key]`),
broadcasting over numpy arrays. -/
def MetricValue.neg : MetricValue → MetricValue
  | .num q => .num (-q)
  | .vec l => .vec (l.map (fun x => -x))

/-- The static configuration shared by `SUMOTrafficSimulator` and
`TrafficSignalControlEnv`: the controllers' configuration, the metric
configuration, the per-agent detector lists and the step budget
(`int(simulation.getEndTime())`). -/
structure EnvConfig where
  tl : TLConfig
  state_metrics : List String
  use_phase_one_hot : Bool
  reward_metric : String
  detectors : List (String × List String)
  simulation_max_steps : ℤ

/-- The external SUMO world, as an oracle indexed by the simulator's
internal tick (one tick per `simulationStep()` call): pending-vehicle
count, clock, and detector telemetry. -/
structure SumoOracle where
  minExpected : ℕ → ℕ
  getTime : ℕ → ℚ
  readings : ℕ → Readings

/-- The mutable state of `SUMOTrafficSimulator`: the world tick, the
`simulation_step` counter, the termination flags and the controllers. -/
structure SimState where
  tick : ℕ
  simulation_step : ℚ
  is_truncated : Bool
  is_terminated : Bool
  controllers : List (String × TLState)

/-- `SUMOTrafficSimulator.sumo_step` (lines 269-307): check the step
budget, then vehicle exhaustion; forward the action to the named
controller's `pseudo_step`; advance the simulator by one timestep; collect
the controller's observation; reward is the negated configured metric;
`done` is the disjunction of the (unchanged) termination flags.  The
`simulate_accident` triggers only mutate vehicles inside the external
simulator, so they do not appear in the embedded state; any exception is
logged and re-raised (`Except.error`). -/
def sumo_step (cfg : EnvConfig) (o : SumoOracle) (st : SimState) (agent_id : String)
    (action : ℕ) :
    Except String ((Option (List (String × MetricValue)) × Option MetricValue × Bool) ×
      SimState) :=
  if (cfg.simulation_max_steps : ℚ) ≤ st.simulation_step then
    .ok ((none, none, true), { st with is_truncated := true })
  else if o.minExpected st.tick = 0 then
    .ok ((none, none, true), { st with is_terminated := true })
  else
    match assocGet st.controllers agent_id with
    | none => .error ("KeyError: " ++ agent_id)
    | some tl =>
      match pseudo_step cfg.tl tl (o.getTime st.tick) action with
      | .error e => .error e
      | .ok tl' =>
        match collect_data cfg.state_metrics cfg.use_phase_one_hot tl'.current_phase
            cfg.tl.num_phases ((assocGet cfg.detectors agent_id).getD [])
            (o.readings (st.tick + 1)) with
        | .error e => .error e
        | .ok observation =>
          match assocGet observation cfg.reward_metric with
          | none => .error ("KeyError: " ++ cfg.reward_metric)
          | some v =>
            .ok ((some observation, some v.neg, st.is_truncated || st.is_terminated),
              { st with tick := st.tick + 1
                        simulation_step := st.simulation_step + 1
                        controllers := assocSet st.controllers agent_id tl' })

/-- Python truthiness of the 3-tuple returned by `sumo_step`: a non-empty
tuple is truthy regardless of its components, for `(None, None, True)` and
`(obs, reward, False)` alike. -/
def truthy3 {α β : Type} (_t : α × β × Bool) : Bool := true

/-- The generator `(self.simulator.sumo_step(agent_id, action) for ...)`
consumed by `all(...)`: each agent's `sumo_step` runs in order and the
Python truthiness of its result tuple is collected. -/
def env_step_loop (cfg : EnvConfig) (o : SumoOracle) :
    SimState → List (String × ℕ) → Except String (List Bool × SimState)
  | st, [] => .ok ([], st)
  | st, (agent_id, action) :: rest =>
    match sumo_step cfg o st agent_id action with
    | .error e => .error e
    | .ok (ret, st') =>
      match env_step_loop cfg o st' rest with
      | .error e => .error e
      | .ok (flags, st'') => .ok (truthy3 ret :: flags, st'')

/-- `TrafficSignalControlEnv.step` (lines 67-73):
`done = all(self.simulator.sumo_step(agent_id, action) for ...)` evaluates
the Python truthiness of each returned 3-tuple; with `done` truthy the
method returns `(None, None, None, done, {})` at once.  The embedding
returns the `done` flag and the final simulator state; the
observation-recomputation code after the early return is unreachable
because every tuple is truthy (`claim_C2_env_step_done_bug`). -/
def env_step (cfg : EnvConfig) (o : SumoOracle) (st : SimState)
    (actions : List (String × ℕ)) : Except String (Bool × SimState) :=
  match env_step_loop cfg o st actions with
  | .error e => .error e
  | .ok (flags, st') => .ok (flags.all (fun b => b), st')

/-- The single-agent environment of the C2 scenario. -/
def exCfg : EnvConfig :=
  { tl := exTL
    state_metrics := ["queue_length"]
    use_phase_one_hot := false
    reward_metric := "queue_length"
    detectors := [("A", []), ("B", [])]
    simulation_max_steps := 100 }

/-- A world with five vehicles forever pending (no termination condition
ever fires) and unit telemetry. -/
def exOracle : SumoOracle :=
  { minExpected := fun _ => 5
    getTime := fun k => (k : ℚ)
    readings := fun _ => exReadings1 }

/-- Initial simulator state with one controller. -/
def exSim : SimState :=
  { tick := 0
    simulation_step := 0
    is_truncated := false
    is_terminated := false
    controllers := [("A", reset_tl 0 0)] }

/-- Initial simulator state with two controllers. -/
def exSim2 : SimState :=
  { tick := 0
    simulation_step := 0
    is_truncated := false
    is_terminated := false
    controllers := [("A", reset_tl 0 0), ("B", reset_tl 0 0)] }

theorem sumo_step_exA : sumo_step exCfg exOracle exSim "A" 0 =
    .ok ((some [("queue_length", MetricValue.num 0)], some (MetricValue.num 0), false),
      ⟨1, 1, false, false, [("A", reset_tl 0 0)]⟩) := by
  simp only [sumo_step, exCfg, exOracle, exSim, exTL_action, exTL_min_durations,
    exTL_state_machine, exTL_nphases, pseudo_step, reset_tl, collect_data, collect_loop,
    collect_init, MetricValue.neg]
  norm_num [assocGet, assocSet, dictDiv,
    eq_false (by decide : ("current_phase" : String) ≠ "queue_length")]

theorem sumo_step_ex2A : sumo_step exCfg exOracle exSim2 "A" 0 =
    .ok ((some [("queue_length", MetricValue.num 0)], some (MetricValue.num 0), false),
      ⟨1, 1, false, false, [("A", reset_tl 0 0), ("B", reset_tl 0 0)]⟩) := by
  simp only [sumo_step, exCfg, exOracle, exSim2, exTL_action, exTL_min_durations,
    exTL_state_machine, exTL_nphases, pseudo_step, reset_tl, collect_data, collect_loop,
    collect_init, MetricValue.neg]
  norm_num [assocGet, assocSet, dictDiv,
    eq_false (by decide : ("current_phase" : String) ≠ "queue_length")]

theorem sumo_step_ex2B :
    sumo_step exCfg exOracle ⟨1, 1, false, false, [("A", reset_tl 0 0), ("B", reset_tl 0 0)]⟩
      "B" 0 =
    .ok ((some [("queue_length", MetricValue.num 0)], some (MetricValue.num 0), false),
      ⟨2, 2, false, false, [("A", reset_tl 0 0), ("B", reset_tl 0 0)]⟩) := by
  simp only [sumo_step, exCfg, exOracle, exTL_action, exTL_min_durations,
    exTL_state_machine, exTL_nphases, pseudo_step, reset_tl, collect_data, collect_loop,
    collect_init, MetricValue.neg]
  norm_num [assocGet, assocSet, dictDiv,
    eq_false (by decide : ("current_phase" : String) ≠ "queue_length"),
    eq_false (by decide : ("A" : String) ≠ "B")]

/-- C2: the claim fails on the code.  `env.step` computes
`done = all(sumo_step(...) for ...)` over the returned 3-tuples, and a
non-empty tuple is always truthy in Python, so the environment reports
`done = True` even though the simulator's own done flag for the very same
call is `False` (step budget 100 not reached, 5 vehicles pending): the
environment truncates on its own, contradicting the claim. -/
theorem claim_C2_env_step_done_bug :
    (env_step exCfg exOracle exSim [("A", 0)]).map (fun p => p.1) = .ok true ∧
    (sumo_step exCfg exOracle exSim "A" 0).map (fun p => p.1.2.2) = .ok false := by
  constructor
  · simp only [env_step, env_step_loop, sumo_step_exA]
    rfl
  · rw [sumo_step_exA]
    rfl

/-- C4 counterexample: one `env.step` call with a two-agent action map
advances the simulator by two discrete timesteps (one `simulationStep()`
per agent), not by exactly one timestep in total as the claim states. -/
theorem claim_C4_counterexample :
    (env_step exCfg exOracle exSim2 [("A", 0), ("B", 0)]).map (fun p => p.2.tick) =
      .ok 2 ∧
    exSim2.tick = 0 ∧ (2 : ℕ) ≠ 0 + 1 := by
  refine ⟨?_, rfl, by omega⟩
  simp only [env_step, env_step_loop, sumo_step_ex2A, sumo_step_ex2B]
  rfl

theorem sumo_step_ok_tick (cfg : EnvConfig) (o : SumoOracle) (st : SimState)
    (aid : String) (a : ℕ)
    (ret : Option (List (String × MetricValue)) × Option MetricValue × Bool)
    (st1 : SimState) (h : sumo_step cfg o st aid a = .ok (ret, st1))
    (hmax : ¬ ((cfg.simulation_max_steps : ℚ) ≤ st.simulation_step))
    (hveh : o.minExpected st.tick ≠ 0) :
    st1.tick = st.tick + 1 ∧ st1.simulation_step = st.simulation_step + 1 := by
  rw [sumo_step, if_neg hmax, if_neg hveh] at h
  cases hc : assocGet st.controllers aid with
  | none =>
    simp only [hc] at h
    exact absurd h (by simp)
  | some tl =>
    simp only [hc] at h
    cases hp : pseudo_step cfg.tl tl (o.getTime st.tick) a with
    | error e =>
      simp only [hp] at h
      exact absurd h (by simp)
    | ok tl' =>
      simp only [hp] at h
      cases hcd : collect_data cfg.state_metrics cfg.use_phase_one_hot tl'.current_phase
          cfg.tl.num_phases ((assocGet cfg.detectors aid).getD [])
          (o.readings (st.tick + 1)) with
      | error e =>
        simp only [hcd] at h
        exact absurd h (by simp)
      | ok observation =>
        simp only [hcd] at h
        cases hrw : assocGet observation cfg.reward_metric with
        | none =>
          simp only [hrw] at h
          exact absurd h (by simp)
        | some v =>
          simp only [hrw] at h
          have h2 := congrArg (fun p : _ × SimState => p.2) (Except.ok.inj h)
          simp only at h2
          exact ⟨by rw [← h2], by rw [← h2]⟩

theorem env_step_loop_tick (cfg : EnvConfig) (o : SumoOracle)
    (hveh : ∀ k, o.minExpected k ≠ 0) :
    ∀ (actions : List (String × ℕ)) (st : SimState) (flags : List Bool) (st' : SimState),
      env_step_loop cfg o st actions = .ok (flags, st') →
      st.simulation_step + actions.length ≤ (cfg.simulation_max_steps : ℚ) →
      st'.tick = st.tick + actions.length ∧
        st'.simulation_step = st.simulation_step + actions.length := by
  intro actions
  induction actions with
  | nil =>
    intro st flags st' h _
    rw [env_step_loop] at h
    injection h with h'
    have h2 := congrArg (fun p : List Bool × SimState => p.2) h'
    simp only at h2
    rw [← h2]
    norm_num
  | cons p rest ih =>
    obtain ⟨aid, a⟩ := p
    intro st flags st' h hmax
    rw [env_step_loop] at h
    cases hs : sumo_step cfg o st aid a with
    | error e =>
      simp only [hs] at h
      exact absurd h (by simp)
    | ok pr =>
      obtain ⟨ret, st1⟩ := pr
      simp only [hs] at h
      have hmax1 : ¬ ((cfg.simulation_max_steps : ℚ) ≤ st.simulation_step) := by
        intro hle
        rw [List.length_cons] at hmax
        push_cast at hmax
        linarith
      obtain ⟨ht1, hs1⟩ := sumo_step_ok_tick cfg o st aid a ret st1 hs hmax1 (hveh st.tick)
      cases hl : env_step_loop cfg o st1 rest with
      | error e =>
        simp only [hl] at h
        exact absurd h (by simp)
      | ok pr2 =>
        obtain ⟨flags2, st2⟩ := pr2
        simp only [hl] at h
        have h2 := congrArg (fun p : List Bool × SimState => p.2) (Except.ok.inj h)
        simp only at h2
        obtain ⟨ht', hs'⟩ := ih st1 flags2 st2 hl (by
          rw [hs1, List.length_cons] at *
          push_cast at hmax ⊢
          linarith)
        constructor
        · rw [← h2, ht', ht1, List.length_cons]
          omega
        · rw [← h2, hs', hs1, List.length_cons]
          push_cast
          ring

/-- C4 amended: one `env.step(actions)` call advances the external
simulator by exactly one discrete timestep per agent in the action map —
`len(actions)` timesteps in total, applied sequentially, one agent's action
per timestep — provided the step budget is not exhausted during the call
and vehicles remain. -/
theorem claim_C4_amended (cfg : EnvConfig) (o : SumoOracle) (st : SimState)
    (actions : List (String × ℕ)) (d : Bool) (st' : SimState)
    (hrun : env_step cfg o st actions = .ok (d, st'))
    (hmax : st.simulation_step + actions.length ≤ (cfg.simulation_max_steps : ℚ))
    (hveh : ∀ k, o.minExpected k ≠ 0) :
    st'.tick = st.tick + actions.length ∧
      st'.simulation_step = st.simulation_step + actions.length := by
  rw [env_step] at hrun
  cases hl : env_step_loop cfg o st actions with
  | error e =>
    simp only [hl] at hrun
    exact absurd hrun (by simp)
  | ok pr =>
    obtain ⟨flags, st1⟩ := pr
    simp only [hl] at hrun
    have h2 := congrArg (fun p : Bool × SimState => p.2) (Except.ok.inj hrun)
    simp only at h2
    obtain ⟨ht, hs⟩ := env_step_loop_tick cfg o hveh actions st flags st1 hl hmax
    exact ⟨h2 ▸ ht, h2 ▸ hs⟩

/-- Witness for C4's amended statement on the two-agent scenario: the call
advances tick and step counter by exactly 2 = len(actions). -/
theorem claim_C4_witness :
    (⟨2, 2, false, false, [("A", reset_tl 0 0), ("B", reset_tl 0 0)]⟩ : SimState).tick =
      exSim2.tick + ([("A", 0), ("B", 0)] : List (String × ℕ)).length ∧
    (⟨2, 2, false, false, [("A", reset_tl 0 0), ("B", reset_tl 0 0)]⟩ :
        SimState).simulation_step =
      exSim2.simulation_step + ([("A", 0), ("B", 0)] : List (String × ℕ)).length := by
  refine claim_C4_amended exCfg exOracle exSim2 [("A", 0), ("B", 0)] true
    ⟨2, 2, false, false, [("A", reset_tl 0 0), ("B", reset_tl 0 0)]⟩ ?_ ?_ ?_
  · simp only [env_step, env_step_loop, sumo_step_ex2A, sumo_step_ex2B]
    rfl
  · norm_num [exSim2, exCfg]
  · intro k
    norm_num [exOracle]

/-- Modelled from the spec: the `ReplayBuffer` class is imported from the
repository's `utils` module (`from utils import ReplayBuffer`), which is
not among the sources; the spec describes a bounded circular store of
experiences with strict FIFO eviction at capacity and the standing
invariant `len(buffer) ≤ capacity`. -/
structure ReplayBuffer (α : Type) where
  capacity : ℕ
  buffer : List α

/-- Modelled from the spec: `push` appends the new experience, evicting the
oldest entry once the buffer is at capacity (strict FIFO). -/
def ReplayBuffer.push {α : Type} (b : ReplayBuffer α) (x : α) : ReplayBuffer α :=
  { b with buffer := (b.buffer ++ [x]).drop (b.buffer.length + 1 - b.capacity) }

/-- Modelled from the spec: `sample(batch_size)` draws positions without
replacement within one call and leaves the stored contents unchanged; the
randomly drawn index list is made an explicit argument. -/
def ReplayBuffer.sample {α : Type} (b : ReplayBuffer α) (idxs : List ℕ) :
    List α × ReplayBuffer α :=
  (idxs.filterMap (fun i => b.buffer.get? i), b)

/-- Modelled from the spec: a fresh buffer of the given capacity. -/
def ReplayBuffer.empty (α : Type) (capacity : ℕ) : ReplayBuffer α :=
  ⟨capacity, []⟩

/-- Pushing a list of experiences in order. -/
def ReplayBuffer.pushAll {α : Type} (b : ReplayBuffer α) (xs : List α) : ReplayBuffer α :=
  xs.foldl ReplayBuffer.push b

theorem ReplayBuffer.push_buffer {α : Type} (b : ReplayBuffer α) (x : α) :
    (b.push x).buffer = (b.buffer ++ [x]).drop (b.buffer.length + 1 - b.capacity) := rfl

theorem drop_append_of_le {α : Type} :
    ∀ (l1 l2 : List α) (k : ℕ), k ≤ l1.length →
      (l1 ++ l2).drop k = l1.drop k ++ l2 := by
  intro l1
  induction l1 with
  | nil =>
    intro l2 k h
    have hk : k = 0 := Nat.le_zero.mp (by simpa using h)
    subst hk
    rfl
  | cons x xs ih =>
    intro l2 k h
    cases k with
    | zero => rfl
    | succ k =>
      rw [List.cons_append, List.drop_succ_cons, List.drop_succ_cons]
      exact ih l2 k (by simpa using h)

theorem ReplayBuffer.pushAll_spec {α : Type} :
    ∀ (xs : List α) (b : ReplayBuffer α), b.buffer.length ≤ b.capacity →
      (b.pushAll xs).buffer =
        (b.buffer ++ xs).drop (b.buffer.length + xs.length - b.capacity) ∧
      (b.pushAll xs).capacity = b.capacity := by
  intro xs
  induction xs with
  | nil =>
    intro b hinv
    constructor
    · simp [ReplayBuffer.pushAll, Nat.sub_eq_zero_of_le hinv]
    · simp [ReplayBuffer.pushAll]
  | cons x rest ih =>
    intro b hinv
    have hpush_len : (b.push x).buffer.length =
        b.buffer.length + 1 - (b.buffer.length + 1 - b.capacity) := by
      simp [ReplayBuffer.push]
    have hinv' : (b.push x).buffer.length ≤ b.capacity := by
      rw [hpush_len]
      omega
    obtain ⟨hbuf, _⟩ := ih (b.push x) hinv'
    have hcap' : (b.push x).capacity = b.capacity := rfl
    have hstep : b.pushAll (x :: rest) = (b.push x).pushAll rest := rfl
    constructor
    · rw [hstep, hbuf, hcap', hpush_len, ReplayBuffer.push_buffer]
      have hk : b.buffer.length + 1 - b.capacity ≤ (b.buffer ++ [x]).length := by
        simp only [List.length_append, List.length_cons, List.length_nil]
        omega
      rw [← drop_append_of_le _ rest _ hk, List.drop_drop, List.append_assoc,
        List.singleton_append]
      congr 1
      simp
      omega
    · rw [hstep]
      exact (ih (b.push x) hinv').2

/-- C8: the replay buffer is a bounded strict-FIFO store: `push` preserves
`len(buffer) ≤ capacity` (and the capacity itself), `sample` leaves the
stored contents untouched, `push` at capacity evicts exactly the oldest
element, and pushing any list of items into an empty buffer of capacity N
leaves exactly the N most recent items in insertion order. -/
theorem claim_C8_replay_fifo (α : Type) :
    (∀ (b : ReplayBuffer α) (x : α), b.buffer.length ≤ b.capacity →
        (b.push x).buffer.length ≤ b.capacity ∧ (b.push x).capacity = b.capacity) ∧
    (∀ (b : ReplayBuffer α) (idxs : List ℕ), (b.sample idxs).2 = b) ∧
    (∀ (b : ReplayBuffer α) (x : α), 0 < b.capacity → b.buffer.length = b.capacity →
        (b.push x).buffer = b.buffer.tail ++ [x]) ∧
    (∀ (cap : ℕ) (xs : List α),
        ((ReplayBuffer.empty α cap).pushAll xs).buffer = xs.drop (xs.length - cap)) := by
  refine ⟨?_, ?_, ?_, ?_⟩
  · intro b x hinv
    constructor
    · rw [ReplayBuffer.push_buffer]
      simp
      omega
    · rfl
  · intro b idxs
    rfl
  · intro b x hpos hlen
    rw [ReplayBuffer.push_buffer, hlen]
    have h1 : b.capacity + 1 - b.capacity = 1 := by omega
    rw [h1, drop_append_of_le _ _ _ (by omega : 1 ≤ b.buffer.length), List.drop_one]
  · intro cap xs
    obtain ⟨hbuf, _⟩ :=
      ReplayBuffer.pushAll_spec xs (ReplayBuffer.empty α cap) (by simp [ReplayBuffer.empty])
    rw [hbuf]
    simp [ReplayBuffer.empty]

/-- Witness for C8, instantiating the spec scenario: capacity 3, pushing
T1..T5 in order leaves exactly [T3, T4, T5]. -/
theorem claim_C8_witness :
    ((ReplayBuffer.empty ℕ 3).pushAll [1, 2, 3, 4, 5]).buffer = [3, 4, 5] := by
  have h := (claim_C8_replay_fifo ℕ).2.2.2 3 [1, 2, 3, 4, 5]
  rw [h]
  rfl

noncomputable section

/-- PyTorch `F.elu` with the default `alpha = 1`, applied in
`MixingNetwork.forward` (agent_networks.py, line 180). -/
def elu (x : ℝ) : ℝ := if 0 < x then x else Real.exp x - 1

/-- `MixingNetwork` (agent_networks.py, lines 138-165): the hypernetwork
MLPs producing mixing weights and biases are modelled as arbitrary
functions of the global state — every learned parameter choice of the
`nn.Sequential` stacks yields some such function.  `forward` applies
`torch.abs` to the weight hypernetworks' outputs exactly as the source
does. -/
structure MixingNetwork (num_agents state_dim hypernet_embed_dim : ℕ) where
  hyper_w1 : (Fin state_dim → ℝ) → Fin num_agents → Fin hypernet_embed_dim → ℝ
  hyper_b1 : (Fin state_dim → ℝ) → Fin hypernet_embed_dim → ℝ
  hyper_w2 : (Fin state_dim → ℝ) → Fin hypernet_embed_dim → ℝ
  hyper_b2 : (Fin state_dim → ℝ) → ℝ

/-- `MixingNetwork.forward` (lines 167-189) for one batch element:
`w1 = |hyper_w1(state)|`, `hidden = elu(agent_qs · w1 + b1)`,
`w2 = |hyper_w2(state)|`, `q_total = hidden · w2 + b2`. -/
def MixingNetwork.forward {n s d : ℕ} (net : MixingNetwork n s d)
    (agent_qs : Fin n → ℝ) (state : Fin s → ℝ) : ℝ :=
  (∑ j, elu ((∑ i, agent_qs i * |net.hyper_w1 state i j|) + net.hyper_b1 state j) *
    |net.hyper_w2 state j|) + net.hyper_b2 state

/-- `q_values.max(dim=1)`: the maximal Q-value over the action axis. -/
def vmax : {k : ℕ} → (Fin (k + 1) → ℝ) → ℝ
  | 0, q => q 0
  | _ + 1, q => max (q 0) (vmax (fun i => q i.succ))

/-- The networks held by `TSCMARL` (marl_ctde.py): one value network per
agent (abstracted to its input-output function), the online mixing network
`mixing_net` and the frozen copy `target_net`. -/
structure TSCMARLNets (n s d a : ℕ) (Obs : Type) where
  agent_nets : Fin n → Obs → Fin (a + 1) → ℝ
  mixing_net : MixingNetwork n s d
  target_net : MixingNetwork n s d

/-- `TSCMARL.aggregate_q_values` (lines 67-82) for one batch element: each
agent's maximal Q-value, combined by `self.mixing_net` — the online
network. -/
def aggregate_q_values {n s d a : ℕ} {Obs : Type} (mdl : TSCMARLNets n s d a Obs)
    (obs : Fin n → Obs) (state : Fin s → ℝ) : ℝ :=
  mdl.mixing_net.forward (fun i => vmax (mdl.agent_nets i (obs i))) state

/-- The `next_q_total` of `train_step` (lines 180-181): the TD bootstrap
term evaluates `aggregate_q_values` on the next observations and the next
global state. -/
def train_step_next_q {n s d a : ℕ} {Obs : Type} (mdl : TSCMARLNets n s d a Obs)
    (next_obs : Fin n → Obs) (next_state : Fin s → ℝ) : ℝ :=
  aggregate_q_values mdl next_obs next_state

/-- The one-step TD target of `train_step` (line 182). -/
def train_step_target {n s d a : ℕ} {Obs : Type} (gamma : ℝ)
    (mdl : TSCMARLNets n s d a Obs) (reward : ℝ) (done : Bool)
    (next_obs : Fin n → Obs) (next_state : Fin s → ℝ) : ℝ :=
  reward + gamma * (1 - (if done then 1 else 0)) * train_step_next_q mdl next_obs next_state

/-- `update_target_network` (lines 231-233): overwrite the frozen network's
parameters from the online network. -/
def update_target_network {n s d a : ℕ} {Obs : Type} (mdl : TSCMARLNets n s d a Obs) :
    TSCMARLNets n s d a Obs :=
  { mdl with target_net := mdl.mixing_net }

/-- Concrete networks for C3: the online and frozen mixing networks agree
except in the output bias (0 online, 5 frozen), as after a drifting update
since the last target synchronization. -/
def exNets3 : TSCMARLNets 1 1 1 0 Unit :=
  { agent_nets := fun _ _ _ => 1
    mixing_net :=
      { hyper_w1 := fun _ _ _ => 1
        hyper_b1 := fun _ _ => 0
        hyper_w2 := fun _ _ => 1
        hyper_b2 := fun _ => 0 }
    target_net :=
      { hyper_w1 := fun _ _ _ => 1
        hyper_b1 := fun _ _ => 0
        hyper_w2 := fun _ _ => 1
        hyper_b2 := fun _ => 5 } }

/-- The next observations and next global state used by the C3 instance. -/
def exObs3 : Fin 1 → Unit := fun _ => ()

def exState3 : Fin 1 → ℝ := fun _ => 1

/-- C3: the claim is right and the code wrong: `train_step` computes the TD
bootstrap `next_q_total` through `aggregate_q_values`, which always
evaluates the online `mixing_net`; the frozen `target_net` (synchronized by
`update_target_network` on the fixed cadence) is never evaluated.  On
networks whose online and frozen copies differ only in the output bias, the
computed bootstrap equals the online network's value 1, not the frozen
network's value 6. -/
theorem claim_C3_td_target_online_bug :
    train_step_next_q exNets3 exObs3 exState3 =
      exNets3.mixing_net.forward
        (fun i => vmax (exNets3.agent_nets i (exObs3 i))) exState3 ∧
    exNets3.mixing_net.forward
      (fun i => vmax (exNets3.agent_nets i (exObs3 i))) exState3 = 1 ∧
    exNets3.target_net.forward
      (fun i => vmax (exNets3.agent_nets i (exObs3 i))) exState3 = 6 ∧
    (1 : ℝ) ≠ 6 := by
  refine ⟨rfl, ?_, ?_, by norm_num⟩
  · norm_num [MixingNetwork.forward, vmax, exNets3, Fin.sum_univ_one, elu]
  · norm_num [MixingNetwork.forward, vmax, exNets3, Fin.sum_univ_one, elu]

theorem elu_monotone : Monotone elu := by
  intro x y hxy
  unfold elu
  by_cases hx : 0 < x
  · rw [if_pos hx, if_pos (lt_of_lt_of_le hx hxy)]
    exact hxy
  · rw [if_neg hx]
    by_cases hy : 0 < y
    · rw [if_pos hy]
      have h1 : Real.exp x ≤ 1 := by
        rw [show (1 : ℝ) = Real.exp 0 from (Real.exp_zero).symm]
        exact Real.exp_le_exp.mpr (le_of_not_lt hx)
      linarith
    · rw [if_neg hy]
      have h2 := Real.exp_le_exp.mpr hxy
      linarith

/-- C9: for a fixed global state and fixed parameters,
`MixingNetwork.forward` is monotone non-decreasing in each individual
agent's Q-value: the mixing weights pass through `torch.abs`, so they are
non-negative, and `elu` is monotone. -/
theorem claim_C9_mixing_monotone {n s d : ℕ} (net : MixingNetwork n s d)
    (state : Fin s → ℝ) (qs qs' : Fin n → ℝ) (i : Fin n)
    (hothers : ∀ j, j ≠ i → qs j = qs' j) (hi : qs i ≤ qs' i) :
    net.forward qs state ≤ net.forward qs' state := by
  unfold MixingNetwork.forward
  apply add_le_add_right
  apply Finset.sum_le_sum
  intro j _
  apply mul_le_mul_of_nonneg_right _ (abs_nonneg _)
  apply elu_monotone
  apply add_le_add_right
  apply Finset.sum_le_sum
  intro k _
  by_cases hk : k = i
  · subst hk
    exact mul_le_mul_of_nonneg_right hi (abs_nonneg _)
  · rw [hothers k hk]

/-- A concrete one-agent mixing network for the C9 witness. -/
def exMix9 : MixingNetwork 1 1 1 :=
  { hyper_w1 := fun _ _ _ => 1
    hyper_b1 := fun _ _ => 0
    hyper_w2 := fun _ _ => 1
    hyper_b2 := fun _ => 0 }

def exState9 : Fin 1 → ℝ := fun _ => 0

/-- Witness for C9: raising the single agent's Q-value from 0 to 1 does not
decrease the team value. -/
theorem claim_C9_witness :
    exMix9.forward (fun _ => (0 : ℝ)) exState9 ≤ exMix9.forward (fun _ => (1 : ℝ)) exState9 :=
  claim_C9_mixing_monotone exMix9 exState9 (fun _ => 0) (fun _ => 1) 0
    (fun j hj => absurd (Subsingleton.elim j 0) hj) (by norm_num)

end

end TorontoSUMO
